import Mathlib

/-!
# Bounded producer-consumer queue: the two programs of `03_synchronisation.cpp`

The file embeds the two producer-consumer programs of the repository as
transition systems and proves their safety and progress properties.

* `MutexPC` : "14 Producer Consumer mutex.cpp" (one mutex, one condition
  variable, a `finished` flag), one transition per critical section.
* `LockPC` : the same program statement by statement, with the owner of `mtx`
  and the wait set of `cv` in the state.
* `SemaphorePC` : "15 Producer Consumer Semaphore.cpp" (two counting
  semaphores and a mutex around the queue operation).

Modelling conventions, the same for all three.

* A state holds the shared variables, the local variables of the two threads
  (loop counter, program position) and the two console logs (`Produced: i`,
  `Consumed: item`), which are written inside the critical sections and so
  record the order of the queue operations.
* A thread is a function from states to `Outcome`: the next state when the
  thread can move, `blocked` when it waits (for `mtx`, in `cv.wait` or in
  `acquire()`), `returned` when its function body has ended, `fault` when it
  would call `front()`/`pop()` on an empty `std::queue` (undefined behaviour).
* An interleaving is a schedule, the list of the threads that move, in order;
  `exec` runs it and is `none` when a scheduled thread cannot move. In
  `LockPC` a schedule can also contain spurious wake-ups.
* `sleep_for` only delays and is not a transition.

In `MutexPC` and `SemaphorePC` a region executed while holding `mtx` is one
transition: the mutex makes it indivisible with respect to the regions of the
other thread. In `MutexPC`, `cv.wait(lock, pred)` is
`while (!pred()) cv.wait(lock);`, so the code after it runs from a state where
`pred` holds and the thread is `blocked` otherwise, whatever wakes it.

`LockPC` does not take this for granted: locking, unlocking, waiting and
`notify_all` are transitions of their own, a notification that finds nobody
waiting is lost, and a thread inside `cv.wait` moves again only after a
`notify_all` of the other thread or after a spurious wake-up, which is an
action of the scheduler and never of a thread. `lock_refines_atomic` shows that
every run of `LockPC` is, through `LockPC.abstraction`, a run of `MutexPC`.
-/

namespace ProducerConsumer

/-- The two threads started by `main`. -/
inductive Thread where
  | prod
  | cons
deriving DecidableEq

/-- What a thread does when it is scheduled in a given state. -/
inductive Outcome (σ : Type) where
  | blocked : Outcome σ
  | returned : Outcome σ
  | fault : Outcome σ
  | next : σ → Outcome σ
deriving DecidableEq

/-- Run a schedule: every scheduled action must be able to take place. -/
def exec {α σ : Type} (step : α → σ → Outcome σ) : List α → σ → Option σ
  | [], s => some s
  | a :: rest, s =>
    match step a s with
    | Outcome.next s' => exec step rest s'
    | _ => none

/-- Capacity of the buffer, `const unsigned int MAX_BUFFER = 5;` in both
programs (lines 159 and 237). -/
def MAX_BUFFER : Nat := 5

/-! ## Mutex + condition variable program -/

namespace MutexPC

/-- Shared variables `buffer`, `finished` (lines 158, 163); the producer's loop
variable `i`; whether each thread function has returned; the two console
logs. -/
structure State where
  buffer : List Nat
  finished : Bool
  i : Nat
  producerDone : Bool
  consumerDone : Bool
  produced : List Nat
  consumed : List Nat
deriving DecidableEq

/-- State when `main` starts the threads: `buffer` empty, `finished = false`,
the producer about to run `for (int i = 1; ...)`. -/
def init : State :=
  { buffer := [], finished := false, i := 1, producerDone := false,
    consumerDone := false, produced := [], consumed := [] }

/-- Predicate of the producer's wait: `buffer.size() < MAX_BUFFER`. -/
def producerReady (s : State) : Bool := decide (s.buffer.length < MAX_BUFFER)

/-- Predicate of the consumer's wait: `!buffer.empty() || finished`. -/
def consumerReady (s : State) : Bool := !s.buffer.isEmpty || s.finished

/-- Exit condition of the consumer: `buffer.empty() && finished`. -/
def consumerBreak (s : State) : Bool := s.buffer.isEmpty && s.finished

/-- One step of `producer()` (lines 166-188): while `i <= 10`, the locked region
of the loop body (lines 168-176: wait for room, `buffer.push(i)`, print), then
`++i`; after the loop, the locked region `finished = true` (lines 183-186),
after which the function returns. -/
def producer (s : State) : Outcome State :=
  if s.producerDone then Outcome.returned
  else if s.i ≤ 10 then
    if producerReady s then
      Outcome.next { s with buffer := s.buffer ++ [s.i],
                            produced := s.produced ++ [s.i],
                            i := s.i + 1 }
    else Outcome.blocked
  else Outcome.next { s with finished := true, producerDone := true }

/-- One step of `consumer()` (lines 191-209): one pass of the `while (true)` body
(line 196: wait for an item or for `finished`; line 198: `break` when empty and
finished; lines 200-202: otherwise `buffer.front()`, `buffer.pop()`, print). -/
def consumer (s : State) : Outcome State :=
  if s.consumerDone then Outcome.returned
  else if !consumerReady s then Outcome.blocked
  else if consumerBreak s then Outcome.next { s with consumerDone := true }
  else
    match s.buffer with
    | [] => Outcome.fault
    | item :: rest =>
      Outcome.next { s with buffer := rest, consumed := s.consumed ++ [item] }

/-- The scheduled thread's step. -/
def step : Thread → State → Outcome State
  | Thread.prod, s => producer s
  | Thread.cons, s => consumer s

/-- Run a schedule from a state. -/
def run (sched : List Thread) (s : State) : Option State := exec step sched s

/-- Both `prod.join()` and `cons.join()` can return. -/
def bothDone (s : State) : Bool := s.producerDone && s.consumerDone

/-- Steps the two threads still have to take: the producer's remaining pushes
and its closing step, the consumer's remaining pops and its exit step. -/
def remaining (s : State) : Nat :=
  (if s.producerDone then 0 else 12 - s.i) +
  (if s.consumerDone then 0 else 11 - s.consumed.length)

end MutexPC

/-! ## Mutex + condition variable program, lock level -/

namespace LockPC

/-- Positions of `producer()`: `lock` is the loop test followed by the
`unique_lock` of the body (line 168) or, after the loop, by the `lock_guard`
(line 184); `check` evaluates the wait predicate (line 171); `waiting` is
inside `cv.wait` with `mtx` released; `relock` is after a wake-up, before `mtx`
is taken again; `push` (lines 173-174), `unlock` (line 176), `notify`
(lines 177-179 and `++i`) are the rest of the body; `setFinished` (line 185),
`finUnlock` (line 186), `finNotify` (line 187) are the code after the loop. -/
inductive PPos where
  | lock
  | check
  | waiting
  | relock
  | push
  | unlock
  | notify
  | setFinished
  | finUnlock
  | finNotify
  | done
deriving DecidableEq

/-- Positions of `consumer()`: `lock` (line 193), `check` (line 196), `waiting`
and `relock` as for the producer; `test` is the
`if (buffer.empty() && finished) break;` (line 198), `pop` the three statements
after it (lines 200-202), then `unlock` (line 204) and `notify`
(lines 205-207). -/
inductive CPos where
  | lock
  | check
  | waiting
  | relock
  | test
  | pop
  | unlock
  | notify
  | done
deriving DecidableEq

/-- Effect of `cv.notify_all()` on the producer: it leaves `cv.wait`. -/
def PPos.wake : PPos → PPos
  | PPos.waiting => PPos.relock
  | p => p

/-- Effect of `cv.notify_all()` on the consumer: it leaves `cv.wait`. -/
def CPos.wake : CPos → CPos
  | CPos.waiting => CPos.relock
  | c => c

/-- Shared variables `buffer`, `finished` and the owner of `mtx`; the
producer's loop variable; the position of each thread (a thread at `waiting`
is in the wait set of `cv`); the two console logs. -/
structure State where
  buffer : List Nat
  finished : Bool
  mtx : Option Thread
  i : Nat
  pPos : PPos
  cPos : CPos
  produced : List Nat
  consumed : List Nat
deriving DecidableEq

/-- State when `main` starts the threads. -/
def init : State :=
  { buffer := [], finished := false, mtx := none, i := 1, pPos := PPos.lock,
    cPos := CPos.lock, produced := [], consumed := [] }

/-- One statement of `producer()`. Taking `mtx` blocks while it is owned;
`cv.wait` with a false predicate releases `mtx` and blocks; `notify_all` wakes
the consumer if it is waiting and is followed by `sleep_for` and `++i`. -/
def producer (s : State) : Outcome State :=
  match s.pPos with
  | PPos.lock =>
    if s.mtx = none then
      if s.i ≤ 10 then Outcome.next { s with mtx := some Thread.prod, pPos := PPos.check }
      else Outcome.next { s with mtx := some Thread.prod, pPos := PPos.setFinished }
    else Outcome.blocked
  | PPos.check =>
    if s.buffer.length < MAX_BUFFER then Outcome.next { s with pPos := PPos.push }
    else Outcome.next { s with mtx := none, pPos := PPos.waiting }
  | PPos.waiting => Outcome.blocked
  | PPos.relock =>
    if s.mtx = none then Outcome.next { s with mtx := some Thread.prod, pPos := PPos.check }
    else Outcome.blocked
  | PPos.push =>
    Outcome.next { s with buffer := s.buffer ++ [s.i], produced := s.produced ++ [s.i],
                          pPos := PPos.unlock }
  | PPos.unlock => Outcome.next { s with mtx := none, pPos := PPos.notify }
  | PPos.notify =>
    Outcome.next { s with cPos := s.cPos.wake, i := s.i + 1, pPos := PPos.lock }
  | PPos.setFinished => Outcome.next { s with finished := true, pPos := PPos.finUnlock }
  | PPos.finUnlock => Outcome.next { s with mtx := none, pPos := PPos.finNotify }
  | PPos.finNotify => Outcome.next { s with cPos := s.cPos.wake, pPos := PPos.done }
  | PPos.done => Outcome.returned

/-- One statement of `consumer()`. The `break` destroys the `unique_lock`,
which releases `mtx`. -/
def consumer (s : State) : Outcome State :=
  match s.cPos with
  | CPos.lock =>
    if s.mtx = none then Outcome.next { s with mtx := some Thread.cons, cPos := CPos.check }
    else Outcome.blocked
  | CPos.check =>
    if !s.buffer.isEmpty || s.finished then Outcome.next { s with cPos := CPos.test }
    else Outcome.next { s with mtx := none, cPos := CPos.waiting }
  | CPos.waiting => Outcome.blocked
  | CPos.relock =>
    if s.mtx = none then Outcome.next { s with mtx := some Thread.cons, cPos := CPos.check }
    else Outcome.blocked
  | CPos.test =>
    if s.buffer.isEmpty && s.finished then Outcome.next { s with mtx := none, cPos := CPos.done }
    else Outcome.next { s with cPos := CPos.pop }
  | CPos.pop =>
    match s.buffer with
    | [] => Outcome.fault
    | item :: rest =>
      Outcome.next { s with buffer := rest, consumed := s.consumed ++ [item],
                            cPos := CPos.unlock }
  | CPos.unlock => Outcome.next { s with mtx := none, cPos := CPos.notify }
  | CPos.notify => Outcome.next { s with pPos := s.pPos.wake, cPos := CPos.lock }
  | CPos.done => Outcome.returned

/-- What the scheduler can pick: the next statement of a thread, or a wake-up
of a thread out of `cv.wait` that no `notify_all` has caused (a condition
variable is allowed to do that). -/
inductive Action where
  | stmt : Thread → Action
  | spurious : Thread → Action
deriving DecidableEq

/-- The scheduled action. A spurious wake-up is possible only for a thread
inside `cv.wait`, which then has to take `mtx` again like a notified one. -/
def step : Action → State → Outcome State
  | Action.stmt Thread.prod, s => producer s
  | Action.stmt Thread.cons, s => consumer s
  | Action.spurious Thread.prod, s =>
    if s.pPos = PPos.waiting then Outcome.next { s with pPos := PPos.relock }
    else Outcome.blocked
  | Action.spurious Thread.cons, s =>
    if s.cPos = CPos.waiting then Outcome.next { s with cPos := CPos.relock }
    else Outcome.blocked

/-- Run a schedule from a state. -/
def run (sched : List Action) (s : State) : Option State := exec step sched s

/-- The schedule in which the given threads execute one statement each, in
order, and no spurious wake-up happens. -/
def stmts (threads : List Thread) : List Action := threads.map Action.stmt

/-- Three steps for a spurious wake-up, none for a statement: what a spurious
wake-up adds to the bound on the length of a schedule. -/
def Action.cost : Action → Nat
  | Action.stmt _ => 0
  | Action.spurious _ => 3

/-- Both thread functions have returned. -/
def bothDone (s : State) : Bool := decide (s.pPos = PPos.done) && decide (s.cPos = CPos.done)

/-- The producer owns `mtx` at these positions. -/
def PPos.holds : PPos → Bool
  | PPos.check | PPos.push | PPos.unlock | PPos.setFinished | PPos.finUnlock => true
  | _ => false

/-- The consumer owns `mtx` at these positions. -/
def CPos.holds : CPos → Bool
  | CPos.check | CPos.test | CPos.pop | CPos.unlock => true
  | _ => false

/-- Positions inside the loop body of the producer. -/
def PPos.inLoop : PPos → Bool
  | PPos.check | PPos.waiting | PPos.relock | PPos.push | PPos.unlock | PPos.notify => true
  | _ => false

/-- Positions after the loop of the producer, from the `lock_guard` on. -/
def PPos.afterLoop : PPos → Bool
  | PPos.setFinished | PPos.finUnlock | PPos.finNotify | PPos.done => true
  | _ => false

/-- Positions of the producer after `finished = true`. -/
def PPos.closed : PPos → Bool
  | PPos.finUnlock | PPos.finNotify | PPos.done => true
  | _ => false

/-- Counts 1 when the producer has pushed `i` and not yet run `++i`. -/
def PPos.pushed : PPos → Nat
  | PPos.unlock | PPos.notify => 1
  | _ => 0

/-- The producer has changed the shared state and its `notify_all` is still
to come. -/
def PPos.pending : PPos → Bool
  | PPos.unlock | PPos.notify | PPos.finUnlock | PPos.finNotify => true
  | _ => false

/-- The consumer has popped and its `notify_all` is still to come. -/
def CPos.pending : CPos → Bool
  | CPos.unlock | CPos.notify => true
  | _ => false

/-- Weight of a producer position in `potential`. -/
def PPos.rank : PPos → Nat
  | PPos.lock => 6
  | PPos.check => 5
  | PPos.waiting => 4
  | PPos.relock => 6
  | PPos.push => 4
  | PPos.unlock => 10
  | PPos.notify => 9
  | PPos.setFinished => 5
  | PPos.finUnlock => 4
  | PPos.finNotify => 3
  | PPos.done => 0

/-- Weight of a consumer position in `potential`. -/
def CPos.rank : CPos → Nat
  | CPos.lock => 4
  | CPos.check => 3
  | CPos.waiting => 2
  | CPos.relock => 4
  | CPos.test => 2
  | CPos.pop => 1
  | CPos.unlock => 8
  | CPos.notify => 7
  | CPos.done => 0

/-- A bound on the number of statements still to be executed; a `notify_all`
weighs 3 so that it pays for the two statements a woken thread executes before
it waits again. -/
def potential (s : State) : Nat :=
  7 * (11 - (s.i + s.pPos.pushed)) + s.pPos.rank +
  (8 * (10 - s.consumed.length) + s.cPos.rank)

/-- The state of the atomic model `MutexPC` that a lock-level state stands
for: a pushed item counts as a completed iteration, the producer is done once
`finished` is set, the consumer once it has left its loop. -/
def abstraction (s : State) : MutexPC.State :=
  { buffer := s.buffer, finished := s.finished, i := s.i + s.pPos.pushed,
    producerDone := s.pPos.closed, consumerDone := decide (s.cPos = CPos.done),
    produced := s.produced, consumed := s.consumed }

end LockPC

/-! ## Dual-semaphore program -/

namespace SemaphorePC

/-- Position of a thread inside one iteration of its `for` loop. -/
inductive Pc where
  | acquire
  | critical
  | release
deriving DecidableEq

/-- Shared variables `buffer`, `emptySlots`, `fullSlots` (lines 234, 258, 259);
loop variable and position of each thread; the two console logs. -/
structure State where
  buffer : List Nat
  emptySlots : Nat
  fullSlots : Nat
  pI : Nat
  pPc : Pc
  cI : Nat
  cPc : Pc
  produced : List Nat
  consumed : List Nat
deriving DecidableEq

/-- State when `main` starts the threads: `emptySlots(MAX_BUFFER)`,
`fullSlots(0)`, empty `buffer`, both loops at `i = 1`. -/
def init : State :=
  { buffer := [], emptySlots := MAX_BUFFER, fullSlots := 0,
    pI := 1, pPc := Pc.acquire, cI := 1, cPc := Pc.acquire,
    produced := [], consumed := [] }

/-- One step of `producer()` (lines 264-285): `emptySlots.acquire()` (line 269),
which blocks at 0; then the locked region (lines 273-277: `buffer.push(i)`,
print); then `fullSlots.release()` (line 280), which adds 1 whatever the
count, and `++i`. -/
def producer (s : State) : Outcome State :=
  if s.pI ≤ 10 then
    match s.pPc with
    | Pc.acquire =>
      if 0 < s.emptySlots then
        Outcome.next { s with emptySlots := s.emptySlots - 1, pPc := Pc.critical }
      else Outcome.blocked
    | Pc.critical =>
      Outcome.next { s with buffer := s.buffer ++ [s.pI],
                            produced := s.produced ++ [s.pI],
                            pPc := Pc.release }
    | Pc.release =>
      Outcome.next { s with fullSlots := s.fullSlots + 1, pI := s.pI + 1,
                            pPc := Pc.acquire }
  else Outcome.returned

/-- One step of `consumer()` (lines 290-314): `fullSlots.acquire()` (line 295),
which blocks at 0; then the locked region (lines 298-306: `buffer.front()`,
`buffer.pop()`, print); then `emptySlots.release()` (line 309), which adds 1
whatever the count, and `++i`. -/
def consumer (s : State) : Outcome State :=
  if s.cI ≤ 10 then
    match s.cPc with
    | Pc.acquire =>
      if 0 < s.fullSlots then
        Outcome.next { s with fullSlots := s.fullSlots - 1, cPc := Pc.critical }
      else Outcome.blocked
    | Pc.critical =>
      match s.buffer with
      | [] => Outcome.fault
      | item :: rest =>
        Outcome.next { s with buffer := rest, consumed := s.consumed ++ [item],
                              cPc := Pc.release }
    | Pc.release =>
      Outcome.next { s with emptySlots := s.emptySlots + 1, cI := s.cI + 1,
                            cPc := Pc.acquire }
  else Outcome.returned

/-- The scheduled thread's step. -/
def step : Thread → State → Outcome State
  | Thread.prod, s => producer s
  | Thread.cons, s => consumer s

/-- Run a schedule from a state. -/
def run (sched : List Thread) (s : State) : Option State := exec step sched s

/-- Both loops have run their 10 iterations. -/
def bothDone (s : State) : Bool := decide (10 < s.pI) && decide (10 < s.cI)

/-- Neither thread is between an `acquire()` and the `release()` that ends the
same iteration. -/
def quiescent (s : State) : Bool :=
  decide (s.pPc = Pc.acquire) && decide (s.cPc = Pc.acquire)

/-- Number of steps already taken inside the current iteration. -/
def Pc.offset : Pc → Nat
  | Pc.acquire => 0
  | Pc.critical => 1
  | Pc.release => 2

/-- Steps the two threads still have to take (three per iteration). -/
def remaining (s : State) : Nat :=
  (3 * (11 - s.pI) - s.pPc.offset) + (3 * (11 - s.cI) - s.cPc.offset)

end SemaphorePC

/-! ## Sample schedules -/

/-- The schedule that alternates producer and consumer `n` times. -/
def alternate : Nat → List Thread
  | 0 => []
  | n + 1 => Thread.prod :: Thread.cons :: alternate n

/-- A complete schedule of the mutex program: ten push/pop pairs, then the
producer closes and the consumer exits. -/
def mutexFull : List Thread := alternate 10 ++ [Thread.prod, Thread.cons]

/-- A complete schedule of the semaphore program: the producer fills the
buffer (5 iterations), then each thread runs an iteration in turn, then the
consumer drains the buffer. -/
def semFull : List Thread :=
  List.replicate 15 Thread.prod ++
  (List.replicate 5
    [Thread.cons, Thread.cons, Thread.cons, Thread.prod, Thread.prod, Thread.prod]).flatten ++
  List.replicate 15 Thread.cons

/-- State of the mutex program after `mutexFull`. -/
def mutexFinal : MutexPC.State :=
  { buffer := [], finished := true, i := 11, producerDone := true,
    consumerDone := true, produced := [1, 2, 3, 4, 5, 6, 7, 8, 9, 10],
    consumed := [1, 2, 3, 4, 5, 6, 7, 8, 9, 10] }

/-- State of the mutex program after the producer alone has filled the buffer. -/
def mutexFilled : MutexPC.State :=
  { buffer := [1, 2, 3, 4, 5], finished := false, i := 6, producerDone := false,
    consumerDone := false, produced := [1, 2, 3, 4, 5], consumed := [] }

/-- State of the mutex program after ten push/pop pairs and the closing step:
the queue is closed and drained, the consumer has not yet looked. -/
def mutexClosed : MutexPC.State :=
  { buffer := [], finished := true, i := 11, producerDone := true,
    consumerDone := false, produced := [1, 2, 3, 4, 5, 6, 7, 8, 9, 10],
    consumed := [1, 2, 3, 4, 5, 6, 7, 8, 9, 10] }

/-- State of the semaphore program after `semFull`. -/
def semFinal : SemaphorePC.State :=
  { buffer := [], emptySlots := 5, fullSlots := 0, pI := 11,
    pPc := SemaphorePC.Pc.acquire, cI := 11, cPc := SemaphorePC.Pc.acquire,
    produced := [1, 2, 3, 4, 5, 6, 7, 8, 9, 10],
    consumed := [1, 2, 3, 4, 5, 6, 7, 8, 9, 10] }

/-- State of the semaphore program after the producer alone has run five
iterations: the buffer is full. -/
def semFilled : SemaphorePC.State :=
  { buffer := [1, 2, 3, 4, 5], emptySlots := 0, fullSlots := 5, pI := 6,
    pPc := SemaphorePC.Pc.acquire, cI := 1, cPc := SemaphorePC.Pc.acquire,
    produced := [1, 2, 3, 4, 5], consumed := [] }

/-- State of the semaphore program after the producer has run four iterations
and pushed the fifth item, and the consumer has acquired `fullSlots` once:
both threads are between an `acquire()` and a `release()`. -/
def semMid : SemaphorePC.State :=
  { buffer := [1, 2, 3, 4, 5], emptySlots := 0, fullSlots := 3, pI := 5,
    pPc := SemaphorePC.Pc.release, cI := 1, cPc := SemaphorePC.Pc.critical,
    produced := [1, 2, 3, 4, 5], consumed := [] }

/-- Schedule of the lock-level mutex program in which the producer alone runs
five iterations and starts a sixth, is woken once without cause, and has to
wait again. -/
def lockFill : List LockPC.Action :=
  LockPC.stmts (List.replicate 27 Thread.prod) ++
  [LockPC.Action.spurious Thread.prod, LockPC.Action.stmt Thread.prod,
   LockPC.Action.stmt Thread.prod]

/-- Schedule of the lock-level mutex program in which the producer runs one
iteration and the consumer then reaches `buffer.front()`. -/
def lockToPop : List LockPC.Action :=
  LockPC.stmts (List.replicate 5 Thread.prod ++ List.replicate 3 Thread.cons)

/-- State of the lock-level mutex program after the producer alone has run
five iterations and found the buffer full in the sixth: it is inside `cv.wait`,
`mtx` is free, the consumer has not started. -/
def lockWaiting : LockPC.State :=
  { buffer := [1, 2, 3, 4, 5], finished := false, mtx := none, i := 6,
    pPos := LockPC.PPos.waiting, cPos := LockPC.CPos.lock,
    produced := [1, 2, 3, 4, 5], consumed := [] }

/-- A complete schedule of the lock-level mutex program: the producer fills
the buffer and waits; the consumer drains it (waking the producer with its
first `notify_all`) and waits; the producer pushes 6..10, closes and returns;
the consumer drains the buffer and returns. -/
def lockFull : List LockPC.Action :=
  LockPC.stmts (List.replicate 27 Thread.prod ++ List.replicate 32 Thread.cons ++
    List.replicate 29 Thread.prod ++ List.replicate 33 Thread.cons)

/-- State of the lock-level mutex program after `lockFull`. -/
def lockFinal : LockPC.State :=
  { buffer := [], finished := true, mtx := none, i := 11,
    pPos := LockPC.PPos.done, cPos := LockPC.CPos.done,
    produced := [1, 2, 3, 4, 5, 6, 7, 8, 9, 10],
    consumed := [1, 2, 3, 4, 5, 6, 7, 8, 9, 10] }

/-- State of the lock-level mutex program when the consumer, first to run, has
passed its wait predicate on the item pushed by the producer and is about to
call `buffer.front()`. -/
def lockAtPop : LockPC.State :=
  { buffer := [1], finished := false, mtx := some Thread.cons, i := 2,
    pPos := LockPC.PPos.lock, cPos := LockPC.CPos.pop,
    produced := [1], consumed := [] }

/-- State of the lock-level mutex program one step before the end of
`lockFull`: the queue is closed and drained, the producer has returned, the
consumer has passed its wait predicate and is at the `break` test. -/
def lockAtBreak : LockPC.State :=
  { buffer := [], finished := true, mtx := some Thread.cons, i := 11,
    pPos := LockPC.PPos.done, cPos := LockPC.CPos.test,
    produced := [1, 2, 3, 4, 5, 6, 7, 8, 9, 10],
    consumed := [1, 2, 3, 4, 5, 6, 7, 8, 9, 10] }

/-! ## Invariants -/

namespace MutexPC

/-- Inductive invariant of the mutex program. -/
structure Inv (s : State) : Prop where
  i_pos : 1 ≤ s.i
  i_le : s.i ≤ 11
  produced_eq : s.produced = List.range' 1 (s.i - 1)
  fifo : s.consumed ++ s.buffer = s.produced
  size_le : s.buffer.length ≤ MAX_BUFFER
  fin_eq : s.finished = s.producerDone
  done_i : s.producerDone = true → s.i = 11
  cdone : s.consumerDone = true → s.finished = true ∧ s.buffer = []

end MutexPC

namespace SemaphorePC

/-- Counts 1 when a thread is at the given position, 0 otherwise. -/
def inFlight (pc target : Pc) : Nat := if pc = target then 1 else 0

/-- Inductive invariant of the semaphore program. -/
structure Inv (s : State) : Prop where
  pI_pos : 1 ≤ s.pI
  pI_le : s.pI ≤ 11
  cI_pos : 1 ≤ s.cI
  cI_le : s.cI ≤ 11
  p_mid : s.pPc ≠ Pc.acquire → s.pI ≤ 10
  c_mid : s.cPc ≠ Pc.acquire → s.cI ≤ 10
  produced_eq : s.produced = List.range' 1 (s.pI - 1 + inFlight s.pPc Pc.release)
  fifo : s.consumed ++ s.buffer = s.produced
  consumed_len : s.consumed.length = s.cI - 1 + inFlight s.cPc Pc.release
  empty_eq : s.emptySlots + s.buffer.length + inFlight s.pPc Pc.critical
      + inFlight s.cPc Pc.release = MAX_BUFFER
  full_eq : s.fullSlots + inFlight s.pPc Pc.release + inFlight s.cPc Pc.critical
      = s.buffer.length

end SemaphorePC

namespace LockPC

/-- Inductive invariant of the lock-level mutex program: mutual exclusion, the
data invariants of the atomic model, what each position knows about the shared
state, and that a thread in `cv.wait` whose predicate holds has a
`notify_all` of the other thread still to come. -/
structure Inv (s : State) : Prop where
  p_owner : s.mtx = some Thread.prod ↔ s.pPos.holds = true
  c_owner : s.mtx = some Thread.cons ↔ s.cPos.holds = true
  i_pos : 1 ≤ s.i
  i_le : s.i ≤ 11
  in_loop : s.pPos.inLoop = true → s.i ≤ 10
  after_loop : s.pPos.afterLoop = true → s.i = 11
  fin_eq : s.finished = s.pPos.closed
  produced_eq : s.produced = List.range' 1 (s.i - 1 + s.pPos.pushed)
  fifo : s.consumed ++ s.buffer = s.produced
  size_le : s.buffer.length ≤ MAX_BUFFER
  push_room : s.pPos = PPos.push → s.buffer.length < MAX_BUFFER
  pop_item : s.cPos = CPos.pop → s.buffer ≠ []
  test_ready : s.cPos = CPos.test → s.buffer ≠ [] ∨ s.finished = true
  cdone : s.cPos = CPos.done → s.finished = true ∧ s.buffer = []
  p_wait : s.pPos = PPos.waiting →
    MAX_BUFFER ≤ s.buffer.length ∨ s.cPos.pending = true
  c_wait : s.cPos = CPos.waiting →
    (s.buffer = [] ∧ s.finished = false) ∨ s.pPos.pending = true

end LockPC

/-! ## Generic facts about schedules -/

theorem exec_invariant {α σ : Type} (step : α → σ → Outcome σ) (P : σ → Prop)
    (hstep : ∀ t s s', P s → step t s = Outcome.next s' → P s') :
    ∀ (sched : List α) (s0 s : σ), P s0 → exec step sched s0 = some s → P s := by
  intro sched
  induction sched with
  | nil =>
    intro s0 s h0 h
    simp only [exec, Option.some.injEq] at h
    exact h ▸ h0
  | cons t ts ih =>
    intro s0 s h0 h
    simp only [exec] at h
    cases hs : step t s0 with
    | next s1 =>
      rw [hs] at h
      exact ih s1 s (hstep t s0 s1 h0 hs) h
    | blocked => rw [hs] at h; cases h
    | returned => rw [hs] at h; cases h
    | fault => rw [hs] at h; cases h

theorem exec_measure {α σ : Type} (step : α → σ → Outcome σ) (P : σ → Prop)
    (μ : σ → Nat)
    (hstep : ∀ t s s', P s → step t s = Outcome.next s' → P s' ∧ μ s' + 1 = μ s) :
    ∀ (sched : List α) (s0 s : σ), P s0 → exec step sched s0 = some s →
      sched.length + μ s = μ s0 := by
  intro sched
  induction sched with
  | nil =>
    intro s0 s _ h
    simp only [exec, Option.some.injEq] at h
    subst h
    simp
  | cons t ts ih =>
    intro s0 s h0 h
    simp only [exec] at h
    cases hs : step t s0 with
    | next s1 =>
      rw [hs] at h
      have h1 := hstep t s0 s1 h0 hs
      have h2 := ih s1 s h1.1 h
      simp only [List.length_cons]
      omega
    | blocked => rw [hs] at h; cases h
    | returned => rw [hs] at h; cases h
    | fault => rw [hs] at h; cases h

theorem exec_measure_le {α σ : Type} (step : α → σ → Outcome σ) (P : σ → Prop)
    (μ : σ → Nat) (cost : α → Nat)
    (hstep : ∀ t s s', P s → step t s = Outcome.next s' →
      P s' ∧ μ s' + 1 ≤ μ s + cost t) :
    ∀ (sched : List α) (s0 s : σ), P s0 → exec step sched s0 = some s →
      sched.length + μ s ≤ μ s0 + (sched.map cost).sum := by
  intro sched
  induction sched with
  | nil =>
    intro s0 s _ h
    simp only [exec, Option.some.injEq] at h
    subst h
    simp
  | cons t ts ih =>
    intro s0 s h0 h
    simp only [exec] at h
    cases hs : step t s0 with
    | next s1 =>
      rw [hs] at h
      have h1 := hstep t s0 s1 h0 hs
      have h2 := ih s1 s h1.1 h
      simp only [List.length_cons, List.map_cons, List.sum_cons]
      omega
    | blocked => rw [hs] at h; cases h
    | returned => rw [hs] at h; cases h
    | fault => rw [hs] at h; cases h

/-! ## Mutex + condition variable program: invariant, measure, progress -/

namespace MutexPC

theorem mutex_inv_init : Inv init := by
  constructor <;> simp [init, MAX_BUFFER]

theorem mutex_range_snoc (n : Nat) (h : 1 ≤ n) :
    List.range' 1 (n - 1) ++ [n] = List.range' 1 (n + 1 - 1) := by
  obtain ⟨k, rfl⟩ : ∃ k, n = k + 1 := ⟨n - 1, by omega⟩
  simp only [Nat.add_sub_cancel]
  rw [List.range'_concat]
  simp [Nat.add_comm]

theorem mutex_inv_producer (s s' : State) (h : Inv s) (hs : producer s = Outcome.next s') :
    Inv s' := by
  unfold producer at hs
  split at hs
  · cases hs
  · rename_i hd
    split at hs
    · rename_i hi
      split at hs
      · rename_i hr
        cases hs
        simp only [producerReady, decide_eq_true_eq] at hr
        refine ⟨?_, ?_, ?_, ?_, ?_, h.fin_eq, ?_, ?_⟩
        · simp
        · simp only; omega
        · simp only; rw [h.produced_eq]; exact mutex_range_snoc s.i h.i_pos
        · simp only; rw [← List.append_assoc, h.fifo]
        · simp only [List.length_append, List.length_singleton]; omega
        · intro hd'; exact absurd hd' hd
        · intro hc
          have := h.cdone hc
          rw [h.fin_eq] at this
          exact absurd this.1 hd
      · cases hs
    · rename_i hi
      cases hs
      have hi11 : s.i = 11 := by have := h.i_le; omega
      exact ⟨h.i_pos, h.i_le, h.produced_eq, h.fifo, h.size_le, rfl, fun _ => hi11,
        fun hc => ⟨rfl, (h.cdone hc).2⟩⟩

theorem mutex_producer_push (s : State) (hd : s.producerDone = false) (hi : s.i ≤ 10)
    (hr : s.buffer.length < MAX_BUFFER) :
    producer s =
      Outcome.next { s with buffer := s.buffer ++ [s.i],
                            produced := s.produced ++ [s.i], i := s.i + 1 } := by
  simp [producer, hd, hi, producerReady, hr]

theorem mutex_producer_close (s : State) (hd : s.producerDone = false) (hi : ¬ s.i ≤ 10) :
    producer s = Outcome.next { s with finished := true, producerDone := true } := by
  simp [producer, hd, hi]

theorem mutex_consumer_blocked_of_not_ready (s : State) (hd : s.consumerDone = false)
    (hr : consumerReady s = false) : consumer s = Outcome.blocked := by
  simp [consumer, hd, hr]

theorem mutex_consumer_exit (s : State) (hd : s.consumerDone = false)
    (hb : s.buffer = []) (hf : s.finished = true) :
    consumer s = Outcome.next { s with consumerDone := true } := by
  simp [consumer, hd, consumerReady, consumerBreak, hb, hf]

theorem mutex_consumer_pop (s : State) (item : Nat) (rest : List Nat)
    (hd : s.consumerDone = false) (hb : s.buffer = item :: rest) :
    consumer s =
      Outcome.next { s with buffer := rest, consumed := s.consumed ++ [item] } := by
  simp [consumer, hd, consumerReady, consumerBreak, hb]

theorem mutex_list_cases (l : List Nat) : l = [] ∨ ∃ item rest, l = item :: rest := by
  cases l with
  | nil => exact Or.inl rfl
  | cons a r => exact Or.inr ⟨a, r, rfl⟩

theorem mutex_consumer_next_cases (s s' : State) (hs : consumer s = Outcome.next s') :
    s.consumerDone = false ∧
    ((s.buffer = [] ∧ s.finished = true ∧ s' = { s with consumerDone := true }) ∨
     (∃ item rest, s.buffer = item :: rest ∧
        s' = { s with buffer := rest, consumed := s.consumed ++ [item] })) := by
  have hd : s.consumerDone = false := by
    rcases Bool.eq_false_or_eq_true s.consumerDone with hd | hd
    · simp [consumer, hd] at hs
    · exact hd
  refine ⟨hd, ?_⟩
  rcases mutex_list_cases s.buffer with hb | ⟨item, rest, hb⟩
  · rcases Bool.eq_false_or_eq_true s.finished with hf | hf
    · rw [mutex_consumer_exit s hd hb hf] at hs
      cases hs
      exact Or.inl ⟨hb, hf, rfl⟩
    · rw [mutex_consumer_blocked_of_not_ready s hd (by simp [consumerReady, hb, hf])] at hs
      cases hs
  · rw [mutex_consumer_pop s item rest hd hb] at hs
    cases hs
    exact Or.inr ⟨item, rest, hb, rfl⟩

theorem mutex_inv_consumer (s s' : State) (h : Inv s) (hs : consumer s = Outcome.next s') :
    Inv s' := by
  obtain ⟨hd, hcase⟩ := mutex_consumer_next_cases s s' hs
  rcases hcase with ⟨hb, hf, rfl⟩ | ⟨item, rest, hb, rfl⟩
  · exact ⟨h.i_pos, h.i_le, h.produced_eq, h.fifo, h.size_le, h.fin_eq, h.done_i,
      fun _ => ⟨hf, hb⟩⟩
  · refine ⟨h.i_pos, h.i_le, h.produced_eq, ?_, ?_, h.fin_eq, h.done_i, ?_⟩
    · have := h.fifo
      rw [hb] at this
      simpa using this
    · have := h.size_le
      rw [hb] at this
      simp only [List.length_cons] at this
      simp only
      omega
    · intro hc
      simp only at hc
      rw [hd] at hc
      cases hc

theorem mutex_inv_step (t : Thread) (s s' : State) (h : Inv s)
    (hs : step t s = Outcome.next s') : Inv s' := by
  cases t with
  | prod => exact mutex_inv_producer s s' h hs
  | cons => exact mutex_inv_consumer s s' h hs

theorem mutex_inv_run (sched : List Thread) (s : State) (h : run sched init = some s) :
    Inv s :=
  exec_invariant step Inv mutex_inv_step sched init s mutex_inv_init h

theorem mutex_produced_length (s : State) (h : Inv s) : s.produced.length = s.i - 1 := by
  rw [h.produced_eq]; simp

theorem mutex_lengths (s : State) (h : Inv s) :
    s.consumed.length + s.buffer.length = s.i - 1 := by
  rw [← mutex_produced_length s h, ← h.fifo, List.length_append]

theorem mutex_remaining_step (t : Thread) (s s' : State) (h : Inv s)
    (hs : step t s = Outcome.next s') : Inv s' ∧ remaining s' + 1 = remaining s := by
  refine ⟨mutex_inv_step t s s' h hs, ?_⟩
  have hlen := mutex_lengths s h
  have hile := h.i_le
  have hipos := h.i_pos
  cases t with
  | prod =>
    simp only [step, producer] at hs
    split at hs
    · cases hs
    · rename_i hd
      split at hs
      · split at hs
        · cases hs
          simp only [remaining, hd]
          simp only [Bool.false_eq_true, if_false]
          omega
        · cases hs
      · cases hs
        simp only [remaining, hd]
        simp only [Bool.false_eq_true, if_false, if_true]
        omega
  | cons =>
    obtain ⟨hd, hcase⟩ := mutex_consumer_next_cases s s' hs
    rcases hcase with ⟨hb, hf, rfl⟩ | ⟨item, rest, hb, rfl⟩
    · have hpd : s.producerDone = true := by rw [← h.fin_eq]; exact hf
      have hi := h.done_i hpd
      rw [hb] at hlen
      simp only [List.length_nil] at hlen
      simp only [remaining, hd, hpd]
      simp only [Bool.false_eq_true, if_false, if_true]
      omega
    · rw [hb] at hlen
      simp only [List.length_cons] at hlen
      simp only [remaining, hd, List.length_append, List.length_singleton]
      simp only [Bool.false_eq_true, if_false]
      omega

theorem mutex_enabled_of_not_done (s : State) (h : Inv s) (hnd : bothDone s = false) :
    ∃ t s', step t s = Outcome.next s' := by
  cases hpd : s.producerDone with
  | false =>
    by_cases hi : s.i ≤ 10
    · by_cases hr : s.buffer.length < MAX_BUFFER
      · exact ⟨Thread.prod, _, by simp [step, producer, hpd, hi, producerReady, hr]; rfl⟩
      · have hcd : s.consumerDone = false := by
          cases hc : s.consumerDone with
          | false => rfl
          | true =>
            have := (h.cdone hc).1
            rw [h.fin_eq, hpd] at this
            cases this
        cases hb : s.buffer with
        | nil => simp [hb, MAX_BUFFER] at hr
        | cons item rest => exact ⟨Thread.cons, _, mutex_consumer_pop s item rest hcd hb⟩
    · exact ⟨Thread.prod, _, by simp [step, producer, hpd, hi]; rfl⟩
  | true =>
    have hcd : s.consumerDone = false := by
      simpa [bothDone, hpd] using hnd
    have hf : s.finished = true := by rw [h.fin_eq]; exact hpd
    cases hb : s.buffer with
    | nil => exact ⟨Thread.cons, _, mutex_consumer_exit s hcd hb hf⟩
    | cons item rest => exact ⟨Thread.cons, _, mutex_consumer_pop s item rest hcd hb⟩

end MutexPC

/-! ## Dual-semaphore program: invariant, measure, progress -/

namespace SemaphorePC

theorem sem_inv_init : Inv init := by
  constructor <;> simp [init, MAX_BUFFER, inFlight]

theorem sem_producer_next_cases (s s' : State) (hs : producer s = Outcome.next s') :
    s.pI ≤ 10 ∧
    ((s.pPc = Pc.acquire ∧ 0 < s.emptySlots ∧
        s' = { s with emptySlots := s.emptySlots - 1, pPc := Pc.critical }) ∨
     (s.pPc = Pc.critical ∧
        s' = { s with buffer := s.buffer ++ [s.pI], produced := s.produced ++ [s.pI],
                      pPc := Pc.release }) ∨
     (s.pPc = Pc.release ∧
        s' = { s with fullSlots := s.fullSlots + 1, pI := s.pI + 1,
                      pPc := Pc.acquire })) := by
  unfold producer at hs
  split at hs
  · rename_i hi
    refine ⟨hi, ?_⟩
    split at hs
    · rename_i hpc
      split at hs
      · rename_i he
        cases hs
        exact Or.inl ⟨hpc, he, rfl⟩
      · cases hs
    · rename_i hpc
      cases hs
      exact Or.inr (Or.inl ⟨hpc, rfl⟩)
    · rename_i hpc
      cases hs
      exact Or.inr (Or.inr ⟨hpc, rfl⟩)
  · cases hs

theorem sem_consumer_next_cases (s s' : State) (hs : consumer s = Outcome.next s') :
    s.cI ≤ 10 ∧
    ((s.cPc = Pc.acquire ∧ 0 < s.fullSlots ∧
        s' = { s with fullSlots := s.fullSlots - 1, cPc := Pc.critical }) ∨
     (s.cPc = Pc.critical ∧ ∃ item rest, s.buffer = item :: rest ∧
        s' = { s with buffer := rest, consumed := s.consumed ++ [item],
                      cPc := Pc.release }) ∨
     (s.cPc = Pc.release ∧
        s' = { s with emptySlots := s.emptySlots + 1, cI := s.cI + 1,
                      cPc := Pc.acquire })) := by
  unfold consumer at hs
  split at hs
  · rename_i hi
    refine ⟨hi, ?_⟩
    split at hs
    · rename_i hpc
      split at hs
      · rename_i he
        cases hs
        exact Or.inl ⟨hpc, he, rfl⟩
      · cases hs
    · rename_i hpc
      split at hs
      · cases hs
      · rename_i item rest hb
        cases hs
        exact Or.inr (Or.inl ⟨hpc, item, rest, hb, rfl⟩)
    · rename_i hpc
      cases hs
      exact Or.inr (Or.inr ⟨hpc, rfl⟩)
  · cases hs

theorem sem_range_snoc (n : Nat) (h : 1 ≤ n) :
    List.range' 1 (n - 1) ++ [n] = List.range' 1 (n - 1 + 1) := by
  obtain ⟨k, rfl⟩ : ∃ k, n = k + 1 := ⟨n - 1, by omega⟩
  simp only [Nat.add_sub_cancel]
  rw [List.range'_concat]
  simp [Nat.add_comm]

theorem sem_inv_producer (s s' : State) (h : Inv s) (hs : producer s = Outcome.next s') :
    Inv s' := by
  obtain ⟨hi, hcase⟩ := sem_producer_next_cases s s' hs
  have hpe := h.produced_eq
  have hee := h.empty_eq
  have hfe := h.full_eq
  rcases hcase with ⟨hpc, he, rfl⟩ | ⟨hpc, rfl⟩ | ⟨hpc, rfl⟩
  · rw [hpc] at hpe hee hfe
    simp only [inFlight] at hpe hee hfe
    refine ⟨h.pI_pos, h.pI_le, h.cI_pos, h.cI_le, fun _ => hi, h.c_mid, ?_, h.fifo,
      h.consumed_len, ?_, ?_⟩
    · simpa [inFlight] using hpe
    · simp only [inFlight]; simp at hee ⊢; omega
    · simp only [inFlight]; simp at hfe ⊢; omega
  · rw [hpc] at hpe hee hfe
    simp only [inFlight] at hpe hee hfe
    refine ⟨h.pI_pos, h.pI_le, h.cI_pos, h.cI_le, fun _ => hi, h.c_mid, ?_, ?_,
      h.consumed_len, ?_, ?_⟩
    · simp only [inFlight]
      simp at hpe ⊢
      rw [hpe]
      exact sem_range_snoc s.pI h.pI_pos
    · simp only; rw [← List.append_assoc, h.fifo]
    · simp only [inFlight, List.length_append, List.length_singleton]
      simp at hee ⊢; omega
    · simp only [inFlight, List.length_append, List.length_singleton]
      simp at hfe ⊢; omega
  · rw [hpc] at hpe hee hfe
    simp only [inFlight] at hpe hee hfe
    refine ⟨?_, ?_, h.cI_pos, h.cI_le, ?_, h.c_mid, ?_, h.fifo,
      h.consumed_len, ?_, ?_⟩
    · simp
    · simp only; omega
    · intro hne; exact absurd rfl hne
    · simp only [inFlight]
      simp at hpe ⊢
      have hsub : s.pI - 1 + 1 = s.pI := by have := h.pI_pos; omega
      rw [hsub] at hpe
      exact hpe
    · simp only [inFlight]; simp at hee ⊢; omega
    · simp only [inFlight]; simp at hfe ⊢; omega

theorem sem_inv_consumer (s s' : State) (h : Inv s) (hs : consumer s = Outcome.next s') :
    Inv s' := by
  obtain ⟨hi, hcase⟩ := sem_consumer_next_cases s s' hs
  have hcl := h.consumed_len
  have hee := h.empty_eq
  have hfe := h.full_eq
  rcases hcase with ⟨hpc, he, rfl⟩ | ⟨hpc, item, rest, hb, rfl⟩ | ⟨hpc, rfl⟩
  · rw [hpc] at hcl hee hfe
    simp only [inFlight] at hcl hee hfe
    refine ⟨h.pI_pos, h.pI_le, h.cI_pos, h.cI_le, h.p_mid, fun _ => hi, h.produced_eq,
      h.fifo, ?_, ?_, ?_⟩
    · simpa [inFlight] using hcl
    · simp only [inFlight]; simp at hee ⊢; omega
    · simp only [inFlight]; simp at hfe ⊢; omega
  · rw [hpc, hb] at hee hfe
    rw [hpc] at hcl
    simp only [inFlight, List.length_cons] at hcl hee hfe
    refine ⟨h.pI_pos, h.pI_le, h.cI_pos, h.cI_le, h.p_mid, fun _ => hi, h.produced_eq,
      ?_, ?_, ?_, ?_⟩
    · have := h.fifo
      rw [hb] at this
      simpa using this
    · simp only [inFlight, List.length_append, List.length_singleton]
      simp at hcl ⊢; omega
    · simp only [inFlight]; simp at hee ⊢; omega
    · simp only [inFlight]; simp at hfe ⊢; omega
  · rw [hpc] at hcl hee hfe
    simp only [inFlight] at hcl hee hfe
    refine ⟨h.pI_pos, h.pI_le, ?_, ?_, h.p_mid, ?_, h.produced_eq, h.fifo, ?_, ?_, ?_⟩
    · simp
    · simp only; omega
    · intro hne; exact absurd rfl hne
    · simp only [inFlight]
      simp at hcl ⊢
      have := h.cI_pos
      omega
    · simp only [inFlight]; simp at hee ⊢; omega
    · simp only [inFlight]; simp at hfe ⊢; omega

theorem sem_inv_step (t : Thread) (s s' : State) (h : Inv s)
    (hs : step t s = Outcome.next s') : Inv s' := by
  cases t with
  | prod => exact sem_inv_producer s s' h hs
  | cons => exact sem_inv_consumer s s' h hs

theorem sem_inv_run (sched : List Thread) (s : State) (h : run sched init = some s) :
    Inv s :=
  exec_invariant step Inv sem_inv_step sched init s sem_inv_init h

theorem sem_inFlight_le (pc target : Pc) : inFlight pc target ≤ 1 := by
  unfold inFlight; split <;> omega

theorem sem_lengths (s : State) (h : Inv s) :
    s.consumed.length + s.buffer.length = s.pI - 1 + inFlight s.pPc Pc.release := by
  have := congrArg List.length h.fifo
  rw [h.produced_eq] at this
  simpa using this

theorem sem_remaining_step (t : Thread) (s s' : State) (h : Inv s)
    (hs : step t s = Outcome.next s') : Inv s' ∧ remaining s' + 1 = remaining s := by
  refine ⟨sem_inv_step t s s' h hs, ?_⟩
  have h1 := h.pI_le
  have h2 := h.cI_le
  cases t with
  | prod =>
    obtain ⟨hi, hcase⟩ := sem_producer_next_cases s s' hs
    rcases hcase with ⟨hpc, _, rfl⟩ | ⟨hpc, rfl⟩ | ⟨hpc, rfl⟩ <;>
      simp only [remaining, hpc, Pc.offset] <;> omega
  | cons =>
    obtain ⟨hi, hcase⟩ := sem_consumer_next_cases s s' hs
    rcases hcase with ⟨hpc, _, rfl⟩ | ⟨hpc, item, rest, _, rfl⟩ | ⟨hpc, rfl⟩ <;>
      simp only [remaining, hpc, Pc.offset] <;> omega

theorem sem_pc_cases (pc : Pc) : pc = Pc.acquire ∨ pc = Pc.critical ∨ pc = Pc.release := by
  cases pc <;> simp

theorem sem_producer_acquire (s : State) (hi : s.pI ≤ 10) (hpc : s.pPc = Pc.acquire)
    (he : 0 < s.emptySlots) :
    producer s =
      Outcome.next { s with emptySlots := s.emptySlots - 1, pPc := Pc.critical } := by
  simp only [producer, hi, hpc, he, if_true]

theorem sem_producer_critical (s : State) (hi : s.pI ≤ 10) (hpc : s.pPc = Pc.critical) :
    producer s =
      Outcome.next { s with buffer := s.buffer ++ [s.pI],
                            produced := s.produced ++ [s.pI], pPc := Pc.release } := by
  simp only [producer, hi, hpc, if_true]

theorem sem_producer_release (s : State) (hi : s.pI ≤ 10) (hpc : s.pPc = Pc.release) :
    producer s =
      Outcome.next { s with fullSlots := s.fullSlots + 1, pI := s.pI + 1,
                            pPc := Pc.acquire } := by
  simp only [producer, hi, hpc, if_true]

theorem sem_consumer_acquire (s : State) (hi : s.cI ≤ 10) (hpc : s.cPc = Pc.acquire)
    (he : 0 < s.fullSlots) :
    consumer s =
      Outcome.next { s with fullSlots := s.fullSlots - 1, cPc := Pc.critical } := by
  simp only [consumer, hi, hpc, he, if_true]

theorem sem_consumer_critical (s : State) (item : Nat) (rest : List Nat) (hi : s.cI ≤ 10)
    (hpc : s.cPc = Pc.critical) (hb : s.buffer = item :: rest) :
    consumer s =
      Outcome.next { s with buffer := rest, consumed := s.consumed ++ [item],
                            cPc := Pc.release } := by
  simp only [consumer, hi, hpc, hb, if_true]

theorem sem_consumer_release (s : State) (hi : s.cI ≤ 10) (hpc : s.cPc = Pc.release) :
    consumer s =
      Outcome.next { s with emptySlots := s.emptySlots + 1, cI := s.cI + 1,
                            cPc := Pc.acquire } := by
  simp only [consumer, hi, hpc, if_true]

theorem sem_buffer_ne_nil_at_critical (s : State) (h : Inv s) (hpc : s.cPc = Pc.critical) :
    s.buffer ≠ [] := by
  intro hb
  have := h.full_eq
  rw [hpc, hb] at this
  simp [inFlight] at this

theorem sem_enabled_of_not_done (s : State) (h : Inv s) (hnd : bothDone s = false) :
    ∃ t s', step t s = Outcome.next s' := by
  have hlen := sem_lengths s h
  have hcl := h.consumed_len
  have hee := h.empty_eq
  have hfe := h.full_eq
  rcases sem_pc_cases s.pPc with hp | hp | hp
  · rcases sem_pc_cases s.cPc with hc | hc | hc
    · rw [hp, hc] at hee hfe
      rw [hp] at hlen
      rw [hc] at hcl
      simp [inFlight, MAX_BUFFER] at hee hfe hlen hcl
      by_cases hi : s.pI ≤ 10
      · by_cases he : 0 < s.emptySlots
        · exact ⟨Thread.prod, _, sem_producer_acquire s hi hp he⟩
        · exact ⟨Thread.cons, _, sem_consumer_acquire s (by omega) hc (by omega)⟩
      · have hci : s.cI ≤ 10 := by
          simp only [bothDone, Bool.and_eq_false_iff, decide_eq_false_iff_not] at hnd
          omega
        have := h.pI_le
        have := h.cI_pos
        exact ⟨Thread.cons, _, sem_consumer_acquire s hci hc (by omega)⟩
    · have hci := h.c_mid (by rw [hc]; simp)
      rcases MutexPC.mutex_list_cases s.buffer with hb | ⟨item, rest, hb⟩
      · exact absurd hb (sem_buffer_ne_nil_at_critical s h hc)
      · exact ⟨Thread.cons, _, sem_consumer_critical s item rest hci hc hb⟩
    · exact ⟨Thread.cons, _, sem_consumer_release s (h.c_mid (by rw [hc]; simp)) hc⟩
  · exact ⟨Thread.prod, _, sem_producer_critical s (h.p_mid (by rw [hp]; simp)) hp⟩
  · exact ⟨Thread.prod, _, sem_producer_release s (h.p_mid (by rw [hp]; simp)) hp⟩

theorem sem_remaining_zero_iff (s : State) (h : Inv s) :
    remaining s = 0 ↔ bothDone s = true := by
  have h1 := h.pI_le
  have h2 := h.cI_le
  have h3 := h.p_mid
  have h4 := h.c_mid
  simp only [remaining, bothDone, Bool.and_eq_true, decide_eq_true_eq]
  rcases sem_pc_cases s.pPc with hp | hp | hp <;> rcases sem_pc_cases s.cPc with hc | hc | hc <;>
    simp only [hp, hc, Pc.offset, ne_eq, not_true_eq_false, not_false_eq_true,
      false_implies, true_implies, reduceCtorEq] at h3 h4 ⊢ <;> omega

end SemaphorePC

namespace MutexPC

theorem mutex_remaining_zero_iff (s : State) (h : Inv s) :
    remaining s = 0 ↔ bothDone s = true := by
  have h1 := h.i_le
  have h2 := mutex_lengths s h
  rcases Bool.eq_false_or_eq_true s.producerDone with hp | hp <;>
    rcases Bool.eq_false_or_eq_true s.consumerDone with hc | hc <;>
    simp [remaining, bothDone, hp, hc] <;> omega

end MutexPC

/-! ## Lock-level mutex program: invariant, potential, progress, refinement -/

namespace LockPC

theorem lock_inv_init : Inv init := by
  constructor <;> simp [init, MAX_BUFFER, PPos.holds, CPos.holds, PPos.inLoop,
    PPos.afterLoop, PPos.closed, PPos.pushed]

theorem lock_cwake_holds (c : CPos) : c.wake.holds = c.holds := by
  cases c <;> rfl

theorem lock_cwake_pending (c : CPos) : c.wake.pending = c.pending := by
  cases c <;> rfl

theorem lock_cwake_rank (c : CPos) : c.wake.rank ≤ c.rank + 2 := by
  cases c <;> decide

theorem lock_cwake_pop (c : CPos) : c.wake = CPos.pop ↔ c = CPos.pop := by
  cases c <;> simp [CPos.wake]

theorem lock_cwake_test (c : CPos) : c.wake = CPos.test ↔ c = CPos.test := by
  cases c <;> simp [CPos.wake]

theorem lock_cwake_done (c : CPos) : c.wake = CPos.done ↔ c = CPos.done := by
  cases c <;> simp [CPos.wake]

theorem lock_cwake_waiting (c : CPos) : c.wake ≠ CPos.waiting := by
  cases c <;> simp [CPos.wake]

theorem lock_pwake_holds (p : PPos) : p.wake.holds = p.holds := by
  cases p <;> rfl

theorem lock_pwake_pending (p : PPos) : p.wake.pending = p.pending := by
  cases p <;> rfl

theorem lock_pwake_inLoop (p : PPos) : p.wake.inLoop = p.inLoop := by
  cases p <;> rfl

theorem lock_pwake_afterLoop (p : PPos) : p.wake.afterLoop = p.afterLoop := by
  cases p <;> rfl

theorem lock_pwake_closed (p : PPos) : p.wake.closed = p.closed := by
  cases p <;> rfl

theorem lock_pwake_pushed (p : PPos) : p.wake.pushed = p.pushed := by
  cases p <;> rfl

theorem lock_pwake_rank (p : PPos) : p.wake.rank ≤ p.rank + 2 := by
  cases p <;> decide

theorem lock_pwake_push (p : PPos) : p.wake = PPos.push ↔ p = PPos.push := by
  cases p <;> simp [PPos.wake]

theorem lock_pwake_done (p : PPos) : p.wake = PPos.done ↔ p = PPos.done := by
  cases p <;> simp [PPos.wake]

theorem lock_pwake_waiting (p : PPos) : p.wake ≠ PPos.waiting := by
  cases p <;> simp [PPos.wake]

theorem lock_range_snoc (n : Nat) (h : 1 ≤ n) :
    List.range' 1 (n - 1) ++ [n] = List.range' 1 n := by
  obtain ⟨k, rfl⟩ : ∃ k, n = k + 1 := ⟨n - 1, by omega⟩
  simp only [Nat.add_sub_cancel]
  rw [List.range'_concat]
  simp [Nat.add_comm]

set_option maxHeartbeats 2000000 in
theorem lock_inv_producer (s s' : State) (h : Inv s) (hs : producer s = Outcome.next s') :
    Inv s' := by
  obtain ⟨h1, h2, h3, h4, h5, h6, h7, h8, h9, h10, h11, h12, h13, h14, h15, h16⟩ := h
  unfold producer at hs
  split at hs <;> (try split at hs) <;> (try split at hs) <;> cases hs
  all_goals constructor
  all_goals first
    | exact h9
    | (show _ ++ (_ ++ _) = _ ++ _; rw [← List.append_assoc, h9])
    | skip
  all_goals clear h9
  all_goals simp_all [PPos.holds, PPos.inLoop, PPos.afterLoop, PPos.closed, PPos.pushed,
    PPos.pending, lock_cwake_holds, lock_cwake_pending, lock_cwake_pop, lock_cwake_test,
    lock_cwake_done, lock_cwake_waiting, MAX_BUFFER]
  all_goals first
    | omega
    | exact lock_range_snoc _ h3

set_option maxHeartbeats 2000000 in
theorem lock_inv_consumer (s s' : State) (h : Inv s) (hs : consumer s = Outcome.next s') :
    Inv s' := by
  obtain ⟨h1, h2, h3, h4, h5, h6, h7, h8, h9, h10, h11, h12, h13, h14, h15, h16⟩ := h
  unfold consumer at hs
  split at hs <;> (try split at hs) <;> cases hs
  all_goals constructor
  all_goals first
    | exact h9
    | skip
  all_goals simp_all [CPos.holds, CPos.pending, lock_pwake_holds, lock_pwake_pending,
    lock_pwake_inLoop, lock_pwake_afterLoop, lock_pwake_closed, lock_pwake_pushed,
    lock_pwake_push, lock_pwake_done, lock_pwake_waiting, MAX_BUFFER]
  all_goals first
    | omega
    | (intro hb; simp_all)

theorem lock_spurious_cases (a : Action) (s s' : State)
    (hs : step a s = Outcome.next s') :
    (∃ t, a = Action.stmt t) ∨
    (a = Action.spurious Thread.prod ∧ s.pPos = PPos.waiting ∧
      s' = { s with pPos := PPos.relock }) ∨
    (a = Action.spurious Thread.cons ∧ s.cPos = CPos.waiting ∧
      s' = { s with cPos := CPos.relock }) := by
  cases a with
  | stmt t => exact Or.inl ⟨t, rfl⟩
  | spurious t =>
    cases t with
    | prod =>
      simp only [step] at hs
      split at hs
      · rename_i hw
        cases hs
        exact Or.inr (Or.inl ⟨rfl, hw, rfl⟩)
      · cases hs
    | cons =>
      simp only [step] at hs
      split at hs
      · rename_i hw
        cases hs
        exact Or.inr (Or.inr ⟨rfl, hw, rfl⟩)
      · cases hs

theorem lock_inv_spurious_prod (s : State) (h : Inv s) (hw : s.pPos = PPos.waiting) :
    Inv { s with pPos := PPos.relock } := by
  obtain ⟨h1, h2, h3, h4, h5, h6, h7, h8, h9, h10, h11, h12, h13, h14, h15, h16⟩ := h
  constructor
  all_goals first
    | exact h9
    | skip
  all_goals clear h9
  all_goals simp_all [PPos.holds, PPos.inLoop, PPos.afterLoop, PPos.closed, PPos.pushed,
    PPos.pending, MAX_BUFFER]

theorem lock_inv_spurious_cons (s : State) (h : Inv s) (hw : s.cPos = CPos.waiting) :
    Inv { s with cPos := CPos.relock } := by
  obtain ⟨h1, h2, h3, h4, h5, h6, h7, h8, h9, h10, h11, h12, h13, h14, h15, h16⟩ := h
  constructor
  all_goals first
    | exact h9
    | skip
  all_goals clear h9
  all_goals simp_all [CPos.holds, CPos.pending, MAX_BUFFER]

theorem lock_inv_step (a : Action) (s s' : State) (h : Inv s)
    (hs : step a s = Outcome.next s') : Inv s' := by
  rcases lock_spurious_cases a s s' hs with ⟨t, rfl⟩ | ⟨_, hw, rfl⟩ | ⟨_, hw, rfl⟩
  · cases t with
    | prod => exact lock_inv_producer s s' h hs
    | cons => exact lock_inv_consumer s s' h hs
  · exact lock_inv_spurious_prod s h hw
  · exact lock_inv_spurious_cons s h hw

theorem lock_inv_run (sched : List Action) (s : State) (h : run sched init = some s) :
    Inv s :=
  exec_invariant step Inv lock_inv_step sched init s lock_inv_init h

theorem lock_pushed_le (s : State) (h : Inv s) : s.i + s.pPos.pushed ≤ 11 := by
  have h1 := h.i_le
  have h2 := h.in_loop
  cases hp : s.pPos <;> simp_all [PPos.pushed, PPos.inLoop]

theorem lock_lengths (s : State) (h : Inv s) :
    s.consumed.length + s.buffer.length = s.i - 1 + s.pPos.pushed := by
  have := congrArg List.length h.fifo
  rw [h.produced_eq] at this
  simpa using this

theorem lock_potential_producer (s s' : State) (h : Inv s)
    (hs : producer s = Outcome.next s') : potential s' + 1 ≤ potential s := by
  have hw := lock_cwake_rank s.cPos
  have h1 := h.i_le
  have h2 := h.in_loop
  have h3 := h.after_loop
  unfold producer at hs
  split at hs <;> (try split at hs) <;> (try split at hs) <;> cases hs
  all_goals simp_all [potential, PPos.rank, PPos.pushed, PPos.inLoop, PPos.afterLoop]
  all_goals omega

theorem lock_potential_consumer (s s' : State) (h : Inv s)
    (hs : consumer s = Outcome.next s') : potential s' + 1 ≤ potential s := by
  have hw := lock_pwake_rank s.pPos
  have hwp := lock_pwake_pushed s.pPos
  have h1 := lock_pushed_le s h
  have h2 := lock_lengths s h
  have h3 := h.i_pos
  unfold consumer at hs
  split at hs <;> (try split at hs) <;> cases hs
  all_goals simp_all [potential, CPos.rank]
  all_goals omega

theorem lock_potential_step (a : Action) (s s' : State) (h : Inv s)
    (hs : step a s = Outcome.next s') :
    Inv s' ∧ potential s' + 1 ≤ potential s + a.cost := by
  refine ⟨lock_inv_step a s s' h hs, ?_⟩
  rcases lock_spurious_cases a s s' hs with ⟨t, rfl⟩ | ⟨rfl, hw, rfl⟩ | ⟨rfl, hw, rfl⟩
  · cases t with
    | prod => exact lock_potential_producer s s' h hs
    | cons => exact lock_potential_consumer s s' h hs
  · simp only [potential, hw, PPos.rank, PPos.pushed, Action.cost]
    omega
  · simp only [potential, hw, CPos.rank, Action.cost]
    omega

theorem lock_producer_enabled (s : State) (hw : s.pPos ≠ PPos.waiting)
    (hd : s.pPos ≠ PPos.done) (hm : s.mtx = none ∨ s.pPos.holds = true) :
    ∃ s', producer s = Outcome.next s' := by
  unfold producer
  split <;> simp_all [PPos.holds] <;> (try split) <;> exact ⟨_, rfl⟩

theorem lock_consumer_enabled (s : State) (hw : s.cPos ≠ CPos.waiting)
    (hd : s.cPos ≠ CPos.done) (hm : s.mtx = none ∨ s.cPos.holds = true)
    (hpop : s.cPos = CPos.pop → s.buffer ≠ []) :
    ∃ s', consumer s = Outcome.next s' := by
  unfold consumer
  split <;> simp_all [CPos.holds] <;> (try split) <;> first | exact ⟨_, rfl⟩ | contradiction

theorem lock_not_stuck (s : State) (h : Inv s)
    (hp : s.pPos = PPos.waiting ∨ s.pPos = PPos.done)
    (hc : s.cPos = CPos.waiting ∨ s.cPos = CPos.done) : bothDone s = true := by
  have h7 := h.fin_eq
  have h14 := h.cdone
  have h15 := h.p_wait
  have h16 := h.c_wait
  have h10 := h.size_le
  rcases hp with hp | hp <;> rcases hc with hc | hc <;>
    simp_all [bothDone, PPos.closed, PPos.pending, CPos.pending, MAX_BUFFER]

theorem lock_enabled_of_not_done (s : State) (h : Inv s) (hnd : bothDone s = false) :
    ∃ t s', step (Action.stmt t) s = Outcome.next s' := by
  have hpo := h.p_owner
  have hco := h.c_owner
  by_cases hp : s.pPos.holds = true
  · obtain ⟨s', hs'⟩ := lock_producer_enabled s
      (by intro hw; rw [hw] at hp; cases hp) (by intro hw; rw [hw] at hp; cases hp)
      (Or.inr hp)
    exact ⟨Thread.prod, s', hs'⟩
  · by_cases hc : s.cPos.holds = true
    · obtain ⟨s', hs'⟩ := lock_consumer_enabled s
        (by intro hw; rw [hw] at hc; cases hc) (by intro hw; rw [hw] at hc; cases hc)
        (Or.inr hc) h.pop_item
      exact ⟨Thread.cons, s', hs'⟩
    · have hm : s.mtx = none := by
        rcases hmtx : s.mtx with _ | t
        · rfl
        · cases t with
          | prod => exact absurd (hpo.mp hmtx) hp
          | cons => exact absurd (hco.mp hmtx) hc
      by_cases hpw : s.pPos = PPos.waiting ∨ s.pPos = PPos.done
      · by_cases hcw : s.cPos = CPos.waiting ∨ s.cPos = CPos.done
        · have := lock_not_stuck s h hpw hcw
          rw [this] at hnd
          cases hnd
        · obtain ⟨s', hs'⟩ := lock_consumer_enabled s
            (fun hw => hcw (Or.inl hw)) (fun hw => hcw (Or.inr hw)) (Or.inl hm) h.pop_item
          exact ⟨Thread.cons, s', hs'⟩
      · obtain ⟨s', hs'⟩ := lock_producer_enabled s
          (fun hw => hpw (Or.inl hw)) (fun hw => hpw (Or.inr hw)) (Or.inl hm)
        exact ⟨Thread.prod, s', hs'⟩

theorem lock_refines_producer (s s' : State) (h : Inv s)
    (hs : producer s = Outcome.next s') :
    abstraction s' = abstraction s ∨
      MutexPC.producer (abstraction s) = Outcome.next (abstraction s') := by
  have h5 := h.in_loop
  have h6 := h.after_loop
  have h11 := h.push_room
  unfold producer at hs
  split at hs <;> (try split at hs) <;> (try split at hs) <;> cases hs
  all_goals simp_all [abstraction, PPos.pushed, PPos.closed, PPos.inLoop, PPos.afterLoop,
    lock_cwake_done, MutexPC.producer, MutexPC.producerReady]

theorem lock_refines_consumer (s s' : State) (hs : consumer s = Outcome.next s') :
    abstraction s' = abstraction s ∨
      MutexPC.consumer (abstraction s) = Outcome.next (abstraction s') := by
  unfold consumer at hs
  split at hs <;> (try split at hs) <;> cases hs
  all_goals simp_all [abstraction, lock_pwake_pushed, lock_pwake_closed,
    MutexPC.consumer, MutexPC.consumerReady, MutexPC.consumerBreak]

theorem lock_refines_step (a : Action) (s s' : State) (h : Inv s)
    (hs : step a s = Outcome.next s') :
    abstraction s' = abstraction s ∨
      ∃ t, MutexPC.step t (abstraction s) = Outcome.next (abstraction s') := by
  rcases lock_spurious_cases a s s' hs with ⟨t, rfl⟩ | ⟨_, hw, rfl⟩ | ⟨_, hw, rfl⟩
  · cases t with
    | prod =>
      rcases lock_refines_producer s s' h hs with hst | hmv
      · exact Or.inl hst
      · exact Or.inr ⟨Thread.prod, hmv⟩
    | cons =>
      rcases lock_refines_consumer s s' hs with hst | hmv
      · exact Or.inl hst
      · exact Or.inr ⟨Thread.cons, hmv⟩
  · exact Or.inl (by simp [abstraction, hw, PPos.pushed, PPos.closed])
  · exact Or.inl (by simp [abstraction, hw])

theorem lock_refines_exec :
    ∀ (sched : List Action) (s0 s : State), Inv s0 → exec step sched s0 = some s →
      ∃ sched', exec MutexPC.step sched' (abstraction s0) = some (abstraction s) ∧
        sched'.length ≤ sched.length := by
  intro sched
  induction sched with
  | nil =>
    intro s0 s _ h
    simp only [exec, Option.some.injEq] at h
    subst h
    exact ⟨[], rfl, Nat.le_refl _⟩
  | cons t ts ih =>
    intro s0 s h0 h
    simp only [exec] at h
    cases hs : step t s0 with
    | next s1 =>
      rw [hs] at h
      obtain ⟨sched', hrun', hlen'⟩ := ih s1 s (lock_inv_step t s0 s1 h0 hs) h
      rcases lock_refines_step t s0 s1 h0 hs with hstut | ⟨u, hmove⟩
      · rw [hstut] at hrun'
        exact ⟨sched', hrun', by simp only [List.length_cons]; omega⟩
      · refine ⟨u :: sched', ?_, by simp only [List.length_cons]; omega⟩
        simp only [exec, hmove]
        exact hrun'
    | blocked => rw [hs] at h; cases h
    | returned => rw [hs] at h; cases h
    | fault => rw [hs] at h; cases h

theorem lock_refines_atomic (sched : List Action) (s : State)
    (h : run sched init = some s) :
    ∃ sched', MutexPC.run sched' MutexPC.init = some (abstraction s) ∧
      sched'.length ≤ sched.length :=
  lock_refines_exec sched init s lock_inv_init h

theorem lock_steps_bounded (sched : List Action) (s : State)
    (h : run sched init = some s) :
    sched.length ≤ 160 + (sched.map Action.cost).sum := by
  have := exec_measure_le step Inv potential Action.cost lock_potential_step sched init s
    lock_inv_init h
  have hi : potential init = 160 := by decide
  omega

theorem lock_final (s : State) (h : Inv s) (hd : bothDone s = true) :
    s.consumed = [1, 2, 3, 4, 5, 6, 7, 8, 9, 10] ∧ s.buffer = [] ∧ s.finished = true := by
  simp only [bothDone, Bool.and_eq_true, decide_eq_true_eq] at hd
  obtain ⟨hf, hb⟩ := h.cdone hd.2
  have hi := h.after_loop (by rw [hd.1]; rfl)
  have hfifo := h.fifo
  rw [hb, h.produced_eq, hi, hd.1, List.append_nil] at hfifo
  exact ⟨by rw [hfifo]; decide, hb, hf⟩

theorem lock_producer_buffer (s s' : State) (hs : producer s = Outcome.next s') :
    s'.buffer = s.buffer ∨ (s.pPos = PPos.push ∧ s'.buffer = s.buffer ++ [s.i]) := by
  unfold producer at hs
  split at hs <;> (try split at hs) <;> (try split at hs) <;> cases hs
  all_goals first
    | exact Or.inl rfl
    | exact Or.inr ⟨by assumption, rfl⟩

theorem lock_consumer_no_fault (s : State) (h : Inv s) : consumer s ≠ Outcome.fault := by
  intro hf
  unfold consumer at hf
  split at hf <;> (try split at hf) <;> (try cases hf)
  rename_i hpos _ hnil
  exact h.pop_item hpos hnil

theorem lock_finished_stable (a : Action) (s s' : State)
    (hs : step a s = Outcome.next s') (hf : s.finished = true) : s'.finished = true := by
  rcases lock_spurious_cases a s s' hs with ⟨t, rfl⟩ | ⟨_, _, rfl⟩ | ⟨_, _, rfl⟩
  · cases t with
    | prod =>
      simp only [step] at hs
      unfold producer at hs
      split at hs <;> (try split at hs) <;> (try split at hs) <;> cases hs
      all_goals first | exact hf | rfl
    | cons =>
      simp only [step] at hs
      unfold consumer at hs
      split at hs <;> (try split at hs) <;> cases hs
      all_goals exact hf
  · exact hf
  · exact hf

theorem lock_producer_close (s s' : State) (hs : producer s = Outcome.next s') :
    (s'.finished = s.finished ∨ s.pPos = PPos.setFinished) ∧
    (s.pPos ≠ PPos.push → s'.buffer = s.buffer ∧ s'.produced = s.produced) := by
  unfold producer at hs
  split at hs <;> (try split at hs) <;> (try split at hs) <;> cases hs
  all_goals simp_all

theorem lock_consumer_exit (s s' : State) (hs : consumer s = Outcome.next s') :
    (s'.cPos = CPos.done ↔ s.cPos = CPos.test ∧ s.buffer = [] ∧ s.finished = true) ∧
    (s'.cPos = CPos.done → s'.buffer = s.buffer ∧ s'.consumed = s.consumed) := by
  unfold consumer at hs
  split at hs <;> (try split at hs) <;> cases hs
  all_goals simp_all

theorem lock_closed_facts (s : State) (h : Inv s) (hf : s.finished = true) :
    s.produced = [1, 2, 3, 4, 5, 6, 7, 8, 9, 10] ∧ s.i = 11 ∧ s.pPos.closed = true := by
  have hc : s.pPos.closed = true := by rw [← h.fin_eq]; exact hf
  have hal : s.pPos.afterLoop = true := by
    cases hp : s.pPos <;> simp_all [PPos.closed, PPos.afterLoop]
  have hpu : s.pPos.pushed = 0 := by
    cases hp : s.pPos <;> simp_all [PPos.closed, PPos.pushed]
  have hi := h.after_loop hal
  refine ⟨?_, hi, hc⟩
  rw [h.produced_eq, hi, hpu]
  decide

end LockPC

/-! ## The sample schedules reach the sample states -/

theorem run_mutexFull : MutexPC.run mutexFull MutexPC.init = some mutexFinal := by
  decide

theorem run_mutexFilled :
    MutexPC.run (List.replicate 5 Thread.prod) MutexPC.init = some mutexFilled := by
  decide

theorem run_mutexClosed :
    MutexPC.run (alternate 10 ++ [Thread.prod]) MutexPC.init = some mutexClosed := by
  decide

theorem run_semFull : SemaphorePC.run semFull SemaphorePC.init = some semFinal := by
  decide

theorem run_semFilled :
    SemaphorePC.run (List.replicate 15 Thread.prod) SemaphorePC.init = some semFilled := by
  decide

theorem run_semMid :
    SemaphorePC.run (List.replicate 14 Thread.prod ++ [Thread.cons]) SemaphorePC.init
      = some semMid := by
  decide

theorem run_lockWaiting :
    LockPC.run lockFill LockPC.init = some lockWaiting := by
  decide

theorem run_lockFull : LockPC.run lockFull LockPC.init = some lockFinal := by
  decide

theorem run_lockAtPop :
    LockPC.run lockToPop LockPC.init
      = some lockAtPop := by
  decide

theorem run_lockAtBreak :
    LockPC.run (lockFull.take 120) LockPC.init = some lockAtBreak := by
  decide

/-! ## Mutex + condition variable program: the claims -/

/-- C1: in the mutex + condition-variable program, every interleaving from the
initial state that ends with both threads returned has consumed exactly
`[1,2,3,4,5,6,7,8,9,10]`, in that order, leaves the buffer empty and
`finished = true`; this for interleavings of critical sections (`s`) and for
interleavings of single statements (`l`). -/
theorem C1_mutex_consumed_sequence (sched : List Thread) (s : MutexPC.State)
    (hrun : MutexPC.run sched MutexPC.init = some s)
    (hdone : MutexPC.bothDone s = true)
    (schedL : List LockPC.Action) (l : LockPC.State)
    (hl : LockPC.run schedL LockPC.init = some l)
    (hdoneL : LockPC.bothDone l = true) :
    (s.consumed = [1, 2, 3, 4, 5, 6, 7, 8, 9, 10] ∧ s.buffer = [] ∧
      s.finished = true) ∧
    (l.consumed = [1, 2, 3, 4, 5, 6, 7, 8, 9, 10] ∧ l.buffer = [] ∧
      l.finished = true) := by
  have h := MutexPC.mutex_inv_run sched s hrun
  simp only [MutexPC.bothDone, Bool.and_eq_true] at hdone
  obtain ⟨hf, hb⟩ := h.cdone hdone.2
  have hi := h.done_i hdone.1
  have hfifo := h.fifo
  rw [hb, h.produced_eq, hi, List.append_nil] at hfifo
  exact ⟨⟨by rw [hfifo]; decide, hb, hf⟩,
    LockPC.lock_final l (LockPC.lock_inv_run schedL l hl) hdoneL⟩

theorem C1_mutex_consumed_sequence_witness :
    MutexPC.run mutexFull MutexPC.init = some mutexFinal ∧
    MutexPC.bothDone mutexFinal = true ∧
    LockPC.run lockFull LockPC.init = some lockFinal ∧
    LockPC.bothDone lockFinal = true ∧
    ((mutexFinal.consumed = [1, 2, 3, 4, 5, 6, 7, 8, 9, 10] ∧ mutexFinal.buffer = [] ∧
      mutexFinal.finished = true) ∧
    (lockFinal.consumed = [1, 2, 3, 4, 5, 6, 7, 8, 9, 10] ∧ lockFinal.buffer = [] ∧
      lockFinal.finished = true)) :=
  ⟨by decide, by decide, by decide, by decide,
    C1_mutex_consumed_sequence mutexFull mutexFinal (by decide) (by decide)
      lockFull lockFinal (by decide) (by decide)⟩

/-- C2: in the mutex + condition-variable program, every state reachable from
the initial state under any interleaving has `buffer.size() <= MAX_BUFFER = 5`;
a producer step that pushes is only taken from a state with
`buffer.size() < MAX_BUFFER`; and the producer does push 10 items in all, as a
completed run has printed `Produced:` for 1..10. This for interleavings of
critical sections (`s`) and for interleavings of single statements (`l`),
where the producer is at `buffer.push(i)` only with room in the buffer. -/
theorem C2_mutex_buffer_bounded (sched : List Thread) (s : MutexPC.State)
    (hrun : MutexPC.run sched MutexPC.init = some s)
    (schedL : List LockPC.Action) (l : LockPC.State)
    (hl : LockPC.run schedL LockPC.init = some l) :
    (MAX_BUFFER = 5 ∧ 0 ≤ s.buffer.length ∧ s.buffer.length ≤ MAX_BUFFER ∧
     (∀ s', MutexPC.producer s = Outcome.next s' → s'.buffer ≠ s.buffer →
        s.buffer.length < MAX_BUFFER ∧ s'.buffer = s.buffer ++ [s.i]) ∧
     (MutexPC.bothDone s = true → s.produced.length = 10)) ∧
    (l.buffer.length ≤ MAX_BUFFER ∧
     (l.pPos = LockPC.PPos.push → l.buffer.length < MAX_BUFFER) ∧
     (∀ l', LockPC.producer l = Outcome.next l' → l'.buffer ≠ l.buffer →
        l.buffer.length < MAX_BUFFER ∧ l'.buffer = l.buffer ++ [l.i]) ∧
     (LockPC.bothDone l = true → l.produced.length = 10)) := by
  have h := MutexPC.mutex_inv_run sched s hrun
  have hL := LockPC.lock_inv_run schedL l hl
  refine ⟨⟨rfl, Nat.zero_le _, h.size_le, ?_, ?_⟩, ⟨hL.size_le, hL.push_room, ?_, ?_⟩⟩
  · intro s' hs hne
    unfold MutexPC.producer at hs
    split at hs
    · cases hs
    · split at hs
      · split at hs
        · rename_i hr
          cases hs
          simp only [MutexPC.producerReady, decide_eq_true_eq] at hr
          exact ⟨hr, rfl⟩
        · cases hs
      · cases hs
        exact absurd rfl hne
  · intro hdone
    simp only [MutexPC.bothDone, Bool.and_eq_true] at hdone
    rw [MutexPC.mutex_produced_length s h, h.done_i hdone.1]
  · intro l' hs hne
    rcases LockPC.lock_producer_buffer l l' hs with hsame | ⟨hpos, hpush⟩
    · exact absurd hsame hne
    · exact ⟨hL.push_room hpos, hpush⟩
  · intro hdone
    simp only [LockPC.bothDone, Bool.and_eq_true, decide_eq_true_eq] at hdone
    have hi := hL.after_loop (by rw [hdone.1]; rfl)
    rw [hL.produced_eq, hi, hdone.1]
    rfl

theorem C2_mutex_buffer_bounded_witness :
    MutexPC.run (List.replicate 5 Thread.prod) MutexPC.init = some mutexFilled ∧
    LockPC.run lockFill LockPC.init = some lockWaiting ∧
    mutexFilled.buffer.length = 5 ∧
    MutexPC.producer mutexFilled = Outcome.blocked ∧
    lockWaiting.buffer.length = 5 ∧
    LockPC.producer lockWaiting = Outcome.blocked ∧
    ((MAX_BUFFER = 5 ∧ 0 ≤ mutexFilled.buffer.length ∧
      mutexFilled.buffer.length ≤ MAX_BUFFER ∧
      (∀ s', MutexPC.producer mutexFilled = Outcome.next s' →
          s'.buffer ≠ mutexFilled.buffer →
          mutexFilled.buffer.length < MAX_BUFFER ∧
            s'.buffer = mutexFilled.buffer ++ [mutexFilled.i]) ∧
      (MutexPC.bothDone mutexFilled = true → mutexFilled.produced.length = 10)) ∧
    (lockWaiting.buffer.length ≤ MAX_BUFFER ∧
     (lockWaiting.pPos = LockPC.PPos.push → lockWaiting.buffer.length < MAX_BUFFER) ∧
     (∀ l', LockPC.producer lockWaiting = Outcome.next l' →
        l'.buffer ≠ lockWaiting.buffer →
        lockWaiting.buffer.length < MAX_BUFFER ∧
          l'.buffer = lockWaiting.buffer ++ [lockWaiting.i]) ∧
     (LockPC.bothDone lockWaiting = true → lockWaiting.produced.length = 10))) :=
  ⟨by decide, by decide, by decide, by decide, by decide, by decide,
    C2_mutex_buffer_bounded (List.replicate 5 Thread.prod) mutexFilled (by decide)
      lockFill lockWaiting (by decide)⟩

/-- C5: in the mutex + condition-variable program a consumer still in its loop
leaves it exactly when it sees the buffer empty and `finished = true`: from
such a state its wait predicate holds and its step sets only `consumerDone`
(no item removed, nothing logged); from a state with a non-empty buffer it
removes the front item and stays in the loop; from a state with an empty
buffer and `finished = false` it is blocked; and in general a step leaves the
loop if and only if it was taken with the buffer empty and `finished` set.
Statement by statement (`l`): a consumer step ends the function if and only if
it is the `break` test taken with the buffer empty and `finished` set, and it
then changes neither the buffer nor the log. -/
theorem C5_mutex_consumer_exit (s : MutexPC.State) (hloop : s.consumerDone = false)
    (l : LockPC.State) :
    ((s.buffer = [] ∧ s.finished = true →
        MutexPC.consumerReady s = true ∧
        MutexPC.consumer s = Outcome.next { s with consumerDone := true }) ∧
     (∀ item rest, s.buffer = item :: rest →
        MutexPC.consumer s =
          Outcome.next { s with buffer := rest, consumed := s.consumed ++ [item] }) ∧
     (s.buffer = [] ∧ s.finished = false → MutexPC.consumer s = Outcome.blocked) ∧
     (∀ s', MutexPC.consumer s = Outcome.next s' →
        (s'.consumerDone = true ↔ s.buffer = [] ∧ s.finished = true))) ∧
    (∀ l', LockPC.consumer l = Outcome.next l' →
      (l'.cPos = LockPC.CPos.done ↔
        l.cPos = LockPC.CPos.test ∧ l.buffer = [] ∧ l.finished = true) ∧
      (l'.cPos = LockPC.CPos.done → l'.buffer = l.buffer ∧ l'.consumed = l.consumed)) := by
  refine ⟨⟨?_, ?_, ?_, ?_⟩, fun l' hs => LockPC.lock_consumer_exit l l' hs⟩
  · rintro ⟨hb, hf⟩
    exact ⟨by simp [MutexPC.consumerReady, hf], MutexPC.mutex_consumer_exit s hloop hb hf⟩
  · intro item rest hb
    exact MutexPC.mutex_consumer_pop s item rest hloop hb
  · rintro ⟨hb, hf⟩
    exact MutexPC.mutex_consumer_blocked_of_not_ready s hloop
      (by simp [MutexPC.consumerReady, hb, hf])
  · intro s' hs
    obtain ⟨_, hcase⟩ := MutexPC.mutex_consumer_next_cases s s' hs
    rcases hcase with ⟨hb, hf, rfl⟩ | ⟨item, rest, hb, rfl⟩
    · simp [hb, hf]
    · simp [hb, hloop]

theorem C5_mutex_consumer_exit_witness :
    MutexPC.consumer mutexClosed = Outcome.next mutexFinal ∧
    LockPC.consumer lockAtBreak = Outcome.next lockFinal ∧
    (((mutexClosed.buffer = [] ∧ mutexClosed.finished = true →
        MutexPC.consumerReady mutexClosed = true ∧
        MutexPC.consumer mutexClosed =
          Outcome.next { mutexClosed with consumerDone := true }) ∧
     (∀ item rest, mutexClosed.buffer = item :: rest →
        MutexPC.consumer mutexClosed =
          Outcome.next { mutexClosed with buffer := rest,
                                          consumed := mutexClosed.consumed ++ [item] }) ∧
     (mutexClosed.buffer = [] ∧ mutexClosed.finished = false →
        MutexPC.consumer mutexClosed = Outcome.blocked) ∧
     (∀ s', MutexPC.consumer mutexClosed = Outcome.next s' →
        (s'.consumerDone = true ↔
          mutexClosed.buffer = [] ∧ mutexClosed.finished = true))) ∧
    (∀ l', LockPC.consumer lockAtBreak = Outcome.next l' →
      (l'.cPos = LockPC.CPos.done ↔
        lockAtBreak.cPos = LockPC.CPos.test ∧ lockAtBreak.buffer = [] ∧
          lockAtBreak.finished = true) ∧
      (l'.cPos = LockPC.CPos.done →
        l'.buffer = lockAtBreak.buffer ∧ l'.consumed = lockAtBreak.consumed))) :=
  ⟨by decide, by decide, C5_mutex_consumer_exit mutexClosed (by decide) lockAtBreak⟩

/-- C6: in the mutex + condition-variable program, in every reachable state
with `finished = true` all ten items have already been pushed (the
`Produced:` log is 1..10 and the loop variable is 11) and the producer has
returned, so from such a state it takes no step at all: no push after close,
and no second close. Conversely `finished` is still false while the producer
has not returned, and the step that sets it is taken with 1..10 pushed and
pushes nothing. Statement by statement (`l`): with `finished = true` the log
is 1..10 and what the producer still does (unlock, notify) changes neither
buffer nor log; `finished` is set only by the statement after the loop. -/
theorem C6_mutex_close_after_last_push (sched : List Thread) (s : MutexPC.State)
    (hrun : MutexPC.run sched MutexPC.init = some s)
    (schedL : List LockPC.Action) (l : LockPC.State)
    (hl : LockPC.run schedL LockPC.init = some l) :
    ((s.finished = true →
        s.produced = [1, 2, 3, 4, 5, 6, 7, 8, 9, 10] ∧ s.i = 11 ∧
        MutexPC.producer s = Outcome.returned ∧
        ∀ s', MutexPC.producer s ≠ Outcome.next s') ∧
     (s.producerDone = false → s.finished = false) ∧
     (∀ s', MutexPC.producer s = Outcome.next s' → s'.finished = true →
        s.finished = false ∧ s.produced = [1, 2, 3, 4, 5, 6, 7, 8, 9, 10] ∧
        s'.buffer = s.buffer ∧ s'.produced = s.produced)) ∧
    ((l.finished = true →
        l.produced = [1, 2, 3, 4, 5, 6, 7, 8, 9, 10] ∧ l.i = 11 ∧
        ∀ l', LockPC.producer l = Outcome.next l' →
          l'.buffer = l.buffer ∧ l'.produced = l.produced) ∧
     (∀ l', LockPC.producer l = Outcome.next l' → l.finished = false →
        l'.finished = true →
        l.pPos = LockPC.PPos.setFinished ∧
        l.produced = [1, 2, 3, 4, 5, 6, 7, 8, 9, 10] ∧
        l'.buffer = l.buffer ∧ l'.produced = l.produced)) := by
  have h := MutexPC.mutex_inv_run sched s hrun
  have hL := LockPC.lock_inv_run schedL l hl
  have hprod : s.i = 11 → s.produced = [1, 2, 3, 4, 5, 6, 7, 8, 9, 10] := by
    intro hi
    rw [h.produced_eq, hi]
    decide
  refine ⟨⟨?_, ?_, ?_⟩, ⟨?_, ?_⟩⟩
  · intro hf
    have hd : s.producerDone = true := by rw [← h.fin_eq]; exact hf
    have hi := h.done_i hd
    have hret : MutexPC.producer s = Outcome.returned := by
      simp [MutexPC.producer, hd]
    refine ⟨hprod hi, hi, hret, ?_⟩
    intro s' hs
    rw [hret] at hs
    cases hs
  · intro hd
    rw [h.fin_eq]; exact hd
  · intro s' hs hf'
    have hile := h.i_le
    unfold MutexPC.producer at hs
    split at hs
    · cases hs
    · rename_i hd
      have hfin : s.finished = false := by
        rw [h.fin_eq]; simpa using hd
      split at hs
      · split at hs
        · cases hs
          simp only at hf'
          rw [hfin] at hf'
          cases hf'
        · cases hs
      · cases hs
        exact ⟨hfin, hprod (by omega), rfl, rfl⟩
  · intro hf
    obtain ⟨hp, hi, hc⟩ := LockPC.lock_closed_facts l hL hf
    refine ⟨hp, hi, ?_⟩
    intro l' hs
    refine (LockPC.lock_producer_close l l' hs).2 ?_
    intro hpush
    rw [hpush] at hc
    cases hc
  · intro l' hs hf hf'
    obtain ⟨hfin, hbuf⟩ := LockPC.lock_producer_close l l' hs
    have hpos : l.pPos = LockPC.PPos.setFinished := by
      rcases hfin with hsame | hpos
      · rw [hf, hf'] at hsame
        cases hsame
      · exact hpos
    have hi := hL.after_loop (by rw [hpos]; rfl)
    have hb := hbuf (by rw [hpos]; simp)
    refine ⟨hpos, ?_, hb.1, hb.2⟩
    rw [hL.produced_eq, hi, hpos]
    decide

theorem C6_mutex_close_after_last_push_witness :
    MutexPC.run (alternate 10 ++ [Thread.prod]) MutexPC.init = some mutexClosed ∧
    LockPC.run (lockFull.take 120) LockPC.init = some lockAtBreak ∧
    mutexClosed.finished = true ∧ lockAtBreak.finished = true ∧
    (((mutexClosed.finished = true →
        mutexClosed.produced = [1, 2, 3, 4, 5, 6, 7, 8, 9, 10] ∧ mutexClosed.i = 11 ∧
        MutexPC.producer mutexClosed = Outcome.returned ∧
        ∀ s', MutexPC.producer mutexClosed ≠ Outcome.next s') ∧
     (mutexClosed.producerDone = false → mutexClosed.finished = false) ∧
     (∀ s', MutexPC.producer mutexClosed = Outcome.next s' → s'.finished = true →
        mutexClosed.finished = false ∧
        mutexClosed.produced = [1, 2, 3, 4, 5, 6, 7, 8, 9, 10] ∧
        s'.buffer = mutexClosed.buffer ∧ s'.produced = mutexClosed.produced)) ∧
    ((lockAtBreak.finished = true →
        lockAtBreak.produced = [1, 2, 3, 4, 5, 6, 7, 8, 9, 10] ∧ lockAtBreak.i = 11 ∧
        ∀ l', LockPC.producer lockAtBreak = Outcome.next l' →
          l'.buffer = lockAtBreak.buffer ∧ l'.produced = lockAtBreak.produced) ∧
     (∀ l', LockPC.producer lockAtBreak = Outcome.next l' →
        lockAtBreak.finished = false → l'.finished = true →
        lockAtBreak.pPos = LockPC.PPos.setFinished ∧
        lockAtBreak.produced = [1, 2, 3, 4, 5, 6, 7, 8, 9, 10] ∧
        l'.buffer = lockAtBreak.buffer ∧ l'.produced = lockAtBreak.produced))) :=
  ⟨by decide, by decide, by decide, by decide,
    C6_mutex_close_after_last_push (alternate 10 ++ [Thread.prod]) mutexClosed (by decide)
      (lockFull.take 120) lockAtBreak (by decide)⟩

/-- C7: in the mutex + condition-variable program `finished` never reverts:
for every step `s -> s'` of either thread, from any state,
`s.finished = true` implies `s'.finished = true`; this for steps that are
critical sections (`s`) and for steps that are single statements (`l`). -/
theorem C7_mutex_finished_stable (t : Thread) (s s' : MutexPC.State)
    (hs : MutexPC.step t s = Outcome.next s') (hf : s.finished = true)
    (aL : LockPC.Action) (l l' : LockPC.State)
    (hsL : LockPC.step aL l = Outcome.next l') (hfL : l.finished = true) :
    s'.finished = true ∧ l'.finished = true := by
  refine ⟨?_, LockPC.lock_finished_stable aL l l' hsL hfL⟩
  cases t with
  | prod =>
    simp only [MutexPC.step, MutexPC.producer] at hs
    split at hs
    · cases hs
    · split at hs
      · split at hs
        · cases hs; exact hf
        · cases hs
      · cases hs; rfl
  | cons =>
    obtain ⟨_, hcase⟩ := MutexPC.mutex_consumer_next_cases s s' hs
    rcases hcase with ⟨_, _, rfl⟩ | ⟨item, rest, _, rfl⟩
    · exact hf
    · exact hf

theorem C7_mutex_finished_stable_witness :
    MutexPC.step Thread.cons mutexClosed = Outcome.next mutexFinal ∧
    LockPC.step (LockPC.Action.stmt Thread.cons) lockAtBreak = Outcome.next lockFinal ∧
    mutexClosed.finished = true ∧ lockAtBreak.finished = true ∧
    (mutexFinal.finished = true ∧ lockFinal.finished = true) :=
  ⟨by decide, by decide, by decide, by decide,
    C7_mutex_finished_stable Thread.cons mutexClosed mutexFinal (by decide) (by decide)
      (LockPC.Action.stmt Thread.cons) lockAtBreak lockFinal (by decide) (by decide)⟩

/-! ## Dual-semaphore program: the claims -/

/-- C3: in the dual-semaphore program, in every reachable state the items
consumed so far followed by the buffer contents (front to back) are `[1..k]`
where `k` is the number of items pushed so far (the `Produced:` log, itself
`[1..k]`); so items are popped in the order pushed, none lost, none
duplicated; and when both loops have run their 10 iterations the consumed
sequence is `[1..10]` and the buffer is empty. -/
theorem C3_semaphore_fifo (sched : List Thread) (s : SemaphorePC.State)
    (hrun : SemaphorePC.run sched SemaphorePC.init = some s) :
    s.consumed ++ s.buffer = List.range' 1 s.produced.length ∧
    s.produced = List.range' 1 s.produced.length ∧
    (SemaphorePC.bothDone s = true →
        s.consumed = [1, 2, 3, 4, 5, 6, 7, 8, 9, 10] ∧ s.buffer = []) := by
  have h := SemaphorePC.sem_inv_run sched s hrun
  have hp : s.produced = List.range' 1 s.produced.length := by
    have := h.produced_eq
    rw [this]
    simp
  refine ⟨by rw [h.fifo]; exact hp, hp, ?_⟩
  intro hdone
  simp only [SemaphorePC.bothDone, Bool.and_eq_true, decide_eq_true_eq] at hdone
  have hpi : s.pI = 11 := by have := h.pI_le; omega
  have hci : s.cI = 11 := by have := h.cI_le; omega
  have hpp : s.pPc = SemaphorePC.Pc.acquire := by
    by_contra hne
    have := h.p_mid hne
    omega
  have hcp : s.cPc = SemaphorePC.Pc.acquire := by
    by_contra hne
    have := h.c_mid hne
    omega
  have hlen := SemaphorePC.sem_lengths s h
  have hcl := h.consumed_len
  rw [hpi, hpp] at hlen
  rw [hci, hcp] at hcl
  simp [SemaphorePC.inFlight] at hlen hcl
  have hb : s.buffer = [] := by
    apply List.eq_nil_of_length_eq_zero
    omega
  have hfifo := h.fifo
  rw [hb, List.append_nil, h.produced_eq, hpi, hpp] at hfifo
  refine ⟨?_, hb⟩
  rw [hfifo]
  decide

theorem C3_semaphore_fifo_witness :
    SemaphorePC.run semFull SemaphorePC.init = some semFinal ∧
    SemaphorePC.bothDone semFinal = true ∧
    (semFinal.consumed ++ semFinal.buffer = List.range' 1 semFinal.produced.length ∧
    semFinal.produced = List.range' 1 semFinal.produced.length ∧
    (SemaphorePC.bothDone semFinal = true →
        semFinal.consumed = [1, 2, 3, 4, 5, 6, 7, 8, 9, 10] ∧ semFinal.buffer = [])) :=
  ⟨by decide, by decide, C3_semaphore_fifo semFull semFinal (by decide)⟩

/-- C4: in the dual-semaphore program, at every reachable state in which
neither thread is between its `acquire()` and the `release()` of the same
iteration, `emptySlots = MAX_BUFFER - buffer.size()` (and the subtraction is
exact: `emptySlots + buffer.size() = MAX_BUFFER`) and
`fullSlots = buffer.size()`; initially `emptySlots = 5` and `fullSlots = 0`. -/
theorem C4_semaphore_counters_match (sched : List Thread) (s : SemaphorePC.State)
    (hrun : SemaphorePC.run sched SemaphorePC.init = some s)
    (hq : SemaphorePC.quiescent s = true) :
    (s.emptySlots = MAX_BUFFER - s.buffer.length ∧
      s.emptySlots + s.buffer.length = MAX_BUFFER ∧
      s.fullSlots = s.buffer.length) ∧
    (SemaphorePC.init.emptySlots = 5 ∧ SemaphorePC.init.fullSlots = 0 ∧
      SemaphorePC.quiescent SemaphorePC.init = true) := by
  have h := SemaphorePC.sem_inv_run sched s hrun
  simp only [SemaphorePC.quiescent, Bool.and_eq_true, decide_eq_true_eq] at hq
  have hee := h.empty_eq
  have hfe := h.full_eq
  rw [hq.1, hq.2] at hee hfe
  simp [SemaphorePC.inFlight] at hee hfe
  refine ⟨⟨by omega, hee, hfe⟩, by decide, by decide, by decide⟩

theorem C4_semaphore_counters_match_witness :
    SemaphorePC.run (List.replicate 15 Thread.prod) SemaphorePC.init = some semFilled ∧
    SemaphorePC.quiescent semFilled = true ∧
    ((semFilled.emptySlots = MAX_BUFFER - semFilled.buffer.length ∧
      semFilled.emptySlots + semFilled.buffer.length = MAX_BUFFER ∧
      semFilled.fullSlots = semFilled.buffer.length) ∧
    (SemaphorePC.init.emptySlots = 5 ∧ SemaphorePC.init.fullSlots = 0 ∧
      SemaphorePC.quiescent SemaphorePC.init = true)) :=
  ⟨by decide, by decide,
    C4_semaphore_counters_match (List.replicate 15 Thread.prod) semFilled
      (by decide) (by decide)⟩

/-- C9: in the dual-semaphore program, in every reachable state (also between
an `acquire()` and the matching `release()`) both counters are in
`[0, MAX_BUFFER]` and `buffer.size() <= 5`; when the producer is about to run
`fullSlots.release()` the counter is below 5, and when the consumer is about to
run `emptySlots.release()` that counter is below 5, so the step that adds one
never passes the maximum; an `acquire()` step is only taken from a positive
counter. -/
theorem C9_semaphore_counters_bounded (sched : List Thread) (s : SemaphorePC.State)
    (hrun : SemaphorePC.run sched SemaphorePC.init = some s) :
    (0 ≤ s.emptySlots ∧ s.emptySlots ≤ MAX_BUFFER) ∧
    (0 ≤ s.fullSlots ∧ s.fullSlots ≤ MAX_BUFFER) ∧
    s.buffer.length ≤ 5 ∧
    (s.pPc = SemaphorePC.Pc.release → s.fullSlots < 5 ∧
        SemaphorePC.producer s = Outcome.next
          { s with fullSlots := s.fullSlots + 1, pI := s.pI + 1,
                   pPc := SemaphorePC.Pc.acquire }) ∧
    (s.cPc = SemaphorePC.Pc.release → s.emptySlots < 5 ∧
        SemaphorePC.consumer s = Outcome.next
          { s with emptySlots := s.emptySlots + 1, cI := s.cI + 1,
                   cPc := SemaphorePC.Pc.acquire }) ∧
    (∀ s', SemaphorePC.producer s = Outcome.next s' →
        s.pPc = SemaphorePC.Pc.acquire →
        0 < s.emptySlots ∧ s'.emptySlots = s.emptySlots - 1) ∧
    (∀ s', SemaphorePC.consumer s = Outcome.next s' →
        s.cPc = SemaphorePC.Pc.acquire →
        0 < s.fullSlots ∧ s'.fullSlots = s.fullSlots - 1) := by
  have h := SemaphorePC.sem_inv_run sched s hrun
  have hee := h.empty_eq
  have hfe := h.full_eq
  have b1 := SemaphorePC.sem_inFlight_le s.pPc SemaphorePC.Pc.critical
  have b2 := SemaphorePC.sem_inFlight_le s.cPc SemaphorePC.Pc.release
  have b3 := SemaphorePC.sem_inFlight_le s.pPc SemaphorePC.Pc.release
  have b4 := SemaphorePC.sem_inFlight_le s.cPc SemaphorePC.Pc.critical
  simp only [MAX_BUFFER] at hee ⊢
  refine ⟨⟨Nat.zero_le _, by omega⟩, ⟨Nat.zero_le _, by omega⟩, by omega, ?_, ?_, ?_, ?_⟩
  · intro hp
    rw [hp] at hfe
    simp only [SemaphorePC.inFlight, if_true] at hfe
    exact ⟨by omega,
      SemaphorePC.sem_producer_release s (h.p_mid (by rw [hp]; simp)) hp⟩
  · intro hc
    rw [hc] at hee
    simp only [SemaphorePC.inFlight, if_true] at hee
    exact ⟨by omega,
      SemaphorePC.sem_consumer_release s (h.c_mid (by rw [hc]; simp)) hc⟩
  · intro s' hs hp
    obtain ⟨_, hcase⟩ := SemaphorePC.sem_producer_next_cases s s' hs
    rcases hcase with ⟨_, he, rfl⟩ | ⟨hpc, _⟩ | ⟨hpc, _⟩
    · exact ⟨he, rfl⟩
    · rw [hp] at hpc; cases hpc
    · rw [hp] at hpc; cases hpc
  · intro s' hs hc
    obtain ⟨_, hcase⟩ := SemaphorePC.sem_consumer_next_cases s s' hs
    rcases hcase with ⟨_, he, rfl⟩ | ⟨hpc, _⟩ | ⟨hpc, _⟩
    · exact ⟨he, rfl⟩
    · rw [hc] at hpc; cases hpc
    · rw [hc] at hpc; cases hpc

theorem C9_semaphore_counters_bounded_witness :
    SemaphorePC.run (List.replicate 14 Thread.prod ++ [Thread.cons]) SemaphorePC.init
      = some semMid ∧
    semMid.pPc = SemaphorePC.Pc.release ∧ semMid.fullSlots = 3 ∧
    ((0 ≤ semMid.emptySlots ∧ semMid.emptySlots ≤ MAX_BUFFER) ∧
    (0 ≤ semMid.fullSlots ∧ semMid.fullSlots ≤ MAX_BUFFER) ∧
    semMid.buffer.length ≤ 5 ∧
    (semMid.pPc = SemaphorePC.Pc.release → semMid.fullSlots < 5 ∧
        SemaphorePC.producer semMid = Outcome.next
          { semMid with fullSlots := semMid.fullSlots + 1, pI := semMid.pI + 1,
                        pPc := SemaphorePC.Pc.acquire }) ∧
    (semMid.cPc = SemaphorePC.Pc.release → semMid.emptySlots < 5 ∧
        SemaphorePC.consumer semMid = Outcome.next
          { semMid with emptySlots := semMid.emptySlots + 1, cI := semMid.cI + 1,
                        cPc := SemaphorePC.Pc.acquire }) ∧
    (∀ s', SemaphorePC.producer semMid = Outcome.next s' →
        semMid.pPc = SemaphorePC.Pc.acquire →
        0 < semMid.emptySlots ∧ s'.emptySlots = semMid.emptySlots - 1) ∧
    (∀ s', SemaphorePC.consumer semMid = Outcome.next s' →
        semMid.cPc = SemaphorePC.Pc.acquire →
        0 < semMid.fullSlots ∧ s'.fullSlots = semMid.fullSlots - 1)) :=
  ⟨by decide, by decide, by decide,
    C9_semaphore_counters_bounded (List.replicate 14 Thread.prod ++ [Thread.cons]) semMid
      (by decide)⟩

/-! ## Claims about both programs -/

/-- C8: neither program can deadlock. For every reachable state `m` of the
mutex program and `q` of the semaphore program: if a thread has not finished,
some thread has an enabled step; a producer blocked on a full buffer is enabled
after the consumer's pop (mutex) or `emptySlots.release()` (semaphore), and a
blocked consumer is enabled after the producer's push or close (mutex) or
`fullSlots.release()` (semaphore); and executions are bounded: a schedule has
at most 22 (mutex) or 60 (semaphore) steps, and it has exactly that many if
and only if both threads have finished. The same holds for every reachable
state `l` of the mutex program taken statement by statement, where a thread in
`cv.wait` has no step of its own: unless both threads have returned, some
thread can execute its next statement (no spurious wake-up is needed); a
waiting thread whose predicate holds has a `notify_all` of the other thread
still to come; and a schedule has at most 160 steps, plus 3 for each spurious
wake-up in it. -/
theorem C8_no_deadlock (schedM : List Thread) (m : MutexPC.State)
    (hm : MutexPC.run schedM MutexPC.init = some m)
    (schedL : List LockPC.Action) (l : LockPC.State)
    (hl : LockPC.run schedL LockPC.init = some l)
    (schedS : List Thread) (q : SemaphorePC.State)
    (hq : SemaphorePC.run schedS SemaphorePC.init = some q) :
    ((MutexPC.bothDone m = false → ∃ t m', MutexPC.step t m = Outcome.next m') ∧
     (MutexPC.producer m = Outcome.blocked →
        ∀ m', MutexPC.consumer m = Outcome.next m' →
          ∃ m'', MutexPC.producer m' = Outcome.next m'') ∧
     (MutexPC.consumer m = Outcome.blocked →
        ∀ m', MutexPC.producer m = Outcome.next m' →
          ∃ m'', MutexPC.consumer m' = Outcome.next m'') ∧
     schedM.length ≤ 22 ∧
     (schedM.length = 22 ↔ MutexPC.bothDone m = true)) ∧
    ((LockPC.bothDone l = false →
        ∃ t l', LockPC.step (LockPC.Action.stmt t) l = Outcome.next l') ∧
     (l.pPos = LockPC.PPos.waiting → l.buffer.length < MAX_BUFFER →
        l.cPos.pending = true) ∧
     (l.cPos = LockPC.CPos.waiting → l.buffer ≠ [] ∨ l.finished = true →
        l.pPos.pending = true) ∧
     schedL.length ≤ 160 + (schedL.map LockPC.Action.cost).sum) ∧
    ((SemaphorePC.bothDone q = false →
        ∃ t q', SemaphorePC.step t q = Outcome.next q') ∧
     (SemaphorePC.producer q = Outcome.blocked →
        ∀ q', SemaphorePC.consumer q = Outcome.next q' →
          q.cPc = SemaphorePC.Pc.release →
          ∃ q'', SemaphorePC.producer q' = Outcome.next q'') ∧
     (SemaphorePC.consumer q = Outcome.blocked →
        ∀ q', SemaphorePC.producer q = Outcome.next q' →
          q.pPc = SemaphorePC.Pc.release →
          ∃ q'', SemaphorePC.consumer q' = Outcome.next q'') ∧
     schedS.length ≤ 60 ∧
     (schedS.length = 60 ↔ SemaphorePC.bothDone q = true)) := by
  have hM := MutexPC.mutex_inv_run schedM m hm
  have hS := SemaphorePC.sem_inv_run schedS q hq
  have hL := LockPC.lock_inv_run schedL l hl
  have hmM := exec_measure MutexPC.step MutexPC.Inv MutexPC.remaining
    MutexPC.mutex_remaining_step schedM MutexPC.init m MutexPC.mutex_inv_init hm
  have hmS := exec_measure SemaphorePC.step SemaphorePC.Inv SemaphorePC.remaining
    SemaphorePC.sem_remaining_step schedS SemaphorePC.init q SemaphorePC.sem_inv_init hq
  have hzM := MutexPC.mutex_remaining_zero_iff m hM
  have hzS := SemaphorePC.sem_remaining_zero_iff q hS
  have hiM : MutexPC.remaining MutexPC.init = 22 := by decide
  have hiS : SemaphorePC.remaining SemaphorePC.init = 60 := by decide
  rw [hiM] at hmM
  rw [hiS] at hmS
  refine ⟨⟨MutexPC.mutex_enabled_of_not_done m hM, ?_, ?_, by omega, ?_⟩,
    ⟨LockPC.lock_enabled_of_not_done l hL, ?_, ?_,
      LockPC.lock_steps_bounded schedL l hl⟩,
    ⟨SemaphorePC.sem_enabled_of_not_done q hS, ?_, ?_, by omega, ?_⟩⟩
  · intro hb m' hc
    have hsz := hM.size_le
    unfold MutexPC.producer at hb
    split at hb
    · cases hb
    · rename_i hd
      split at hb
      · rename_i hi
        split at hb
        · cases hb
        · rename_i hr
          simp only [MutexPC.producerReady, decide_eq_true_eq] at hr
          obtain ⟨_, hcase⟩ := MutexPC.mutex_consumer_next_cases m m' hc
          rcases hcase with ⟨hnil, _, _⟩ | ⟨item, rest, hcons, rfl⟩
          · rw [hnil] at hr
            simp [MAX_BUFFER] at hr
          · rw [hcons] at hsz
            simp only [List.length_cons] at hsz
            exact ⟨_, MutexPC.mutex_producer_push _ (by simpa using hd) hi
              (by simp only [MAX_BUFFER] at hr hsz ⊢; omega)⟩
      · cases hb
  · intro hb m' hp
    have hd : m.consumerDone = false := by
      rcases Bool.eq_false_or_eq_true m.consumerDone with hd | hd
      · simp [MutexPC.consumer, hd] at hb
      · exact hd
    unfold MutexPC.producer at hp
    split at hp
    · cases hp
    · split at hp
      · split at hp
        · cases hp
          rcases MutexPC.mutex_list_cases (m.buffer ++ [m.i]) with hnil | ⟨item, rest, hcons⟩
          · simp at hnil
          · exact ⟨_, MutexPC.mutex_consumer_pop _ item rest hd hcons⟩
        · cases hp
      · cases hp
        rcases MutexPC.mutex_list_cases m.buffer with hnil | ⟨item, rest, hcons⟩
        · exact ⟨_, MutexPC.mutex_consumer_exit _ hd hnil rfl⟩
        · exact ⟨_, MutexPC.mutex_consumer_pop _ item rest hd hcons⟩
  · constructor
    · intro hlen
      exact hzM.mp (by omega)
    · intro hdone
      have := hzM.mpr hdone
      omega
  · intro hw hroom
    rcases hL.p_wait hw with hfull | hpend
    · omega
    · exact hpend
  · intro hw hready
    rcases hL.c_wait hw with ⟨hnil, hnf⟩ | hpend
    · rcases hready with hne | hf
      · exact absurd hnil hne
      · rw [hnf] at hf; cases hf
    · exact hpend
  · intro hb q' hc hrel
    obtain ⟨hci, hcase⟩ := SemaphorePC.sem_consumer_next_cases q q' hc
    unfold SemaphorePC.producer at hb
    split at hb
    · rename_i hi
      split at hb
      · rename_i hpc
        split at hb
        · cases hb
        · rcases hcase with ⟨hpc', _⟩ | ⟨hpc', _⟩ | ⟨_, rfl⟩
          · rw [hrel] at hpc'; cases hpc'
          · rw [hrel] at hpc'; cases hpc'
          · exact ⟨_, SemaphorePC.sem_producer_acquire _ hi hpc (by simp)⟩
      · cases hb
      · cases hb
    · cases hb
  · intro hb q' hp hrel
    obtain ⟨hpi, hcase⟩ := SemaphorePC.sem_producer_next_cases q q' hp
    unfold SemaphorePC.consumer at hb
    split at hb
    · rename_i hi
      split at hb
      · rename_i hpc
        split at hb
        · cases hb
        · rcases hcase with ⟨hpc', _⟩ | ⟨hpc', _⟩ | ⟨_, rfl⟩
          · rw [hrel] at hpc'; cases hpc'
          · rw [hrel] at hpc'; cases hpc'
          · exact ⟨_, SemaphorePC.sem_consumer_acquire _ hi hpc (by simp)⟩
      · split at hb
        · cases hb
        · cases hb
      · cases hb
    · cases hb
  · constructor
    · intro hlen
      exact hzS.mp (by omega)
    · intro hdone
      have := hzS.mpr hdone
      omega

theorem C8_no_deadlock_witness :
    MutexPC.run (List.replicate 5 Thread.prod) MutexPC.init = some mutexFilled ∧
    LockPC.run lockFill LockPC.init = some lockWaiting ∧
    SemaphorePC.run (List.replicate 15 Thread.prod) SemaphorePC.init = some semFilled ∧
    MutexPC.producer mutexFilled = Outcome.blocked ∧
    LockPC.producer lockWaiting = Outcome.blocked ∧
    SemaphorePC.producer semFilled = Outcome.blocked ∧
    (((MutexPC.bothDone mutexFilled = false →
        ∃ t m', MutexPC.step t mutexFilled = Outcome.next m') ∧
     (MutexPC.producer mutexFilled = Outcome.blocked →
        ∀ m', MutexPC.consumer mutexFilled = Outcome.next m' →
          ∃ m'', MutexPC.producer m' = Outcome.next m'') ∧
     (MutexPC.consumer mutexFilled = Outcome.blocked →
        ∀ m', MutexPC.producer mutexFilled = Outcome.next m' →
          ∃ m'', MutexPC.consumer m' = Outcome.next m'') ∧
     (List.replicate 5 Thread.prod).length ≤ 22 ∧
     ((List.replicate 5 Thread.prod).length = 22 ↔ MutexPC.bothDone mutexFilled = true)) ∧
    ((LockPC.bothDone lockWaiting = false →
        ∃ t l', LockPC.step (LockPC.Action.stmt t) lockWaiting = Outcome.next l') ∧
     (lockWaiting.pPos = LockPC.PPos.waiting →
        lockWaiting.buffer.length < MAX_BUFFER → lockWaiting.cPos.pending = true) ∧
     (lockWaiting.cPos = LockPC.CPos.waiting →
        lockWaiting.buffer ≠ [] ∨ lockWaiting.finished = true →
        lockWaiting.pPos.pending = true) ∧
     lockFill.length ≤ 160 + (lockFill.map LockPC.Action.cost).sum) ∧
    ((SemaphorePC.bothDone semFilled = false →
        ∃ t q', SemaphorePC.step t semFilled = Outcome.next q') ∧
     (SemaphorePC.producer semFilled = Outcome.blocked →
        ∀ q', SemaphorePC.consumer semFilled = Outcome.next q' →
          semFilled.cPc = SemaphorePC.Pc.release →
          ∃ q'', SemaphorePC.producer q' = Outcome.next q'') ∧
     (SemaphorePC.consumer semFilled = Outcome.blocked →
        ∀ q', SemaphorePC.producer semFilled = Outcome.next q' →
          semFilled.pPc = SemaphorePC.Pc.release →
          ∃ q'', SemaphorePC.consumer q' = Outcome.next q'') ∧
     (List.replicate 15 Thread.prod).length ≤ 60 ∧
     ((List.replicate 15 Thread.prod).length = 60 ↔
        SemaphorePC.bothDone semFilled = true))) :=
  ⟨by decide, by decide, by decide, by decide, by decide, by decide,
    C8_no_deadlock (List.replicate 5 Thread.prod) mutexFilled (by decide)
      lockFill lockWaiting (by decide)
      (List.replicate 15 Thread.prod) semFilled (by decide)⟩

/-- C10: the consumer never reads the front of an empty buffer. Mutex program,
any state `m`: when the wait predicate `!buffer.empty() || finished` holds and
the break condition `buffer.empty() && finished` does not, the buffer is
non-empty, and the consumer's step is never the fault of calling `front()` on
an empty queue; taken statement by statement, in any reachable state `l` in
which the consumer has passed the predicate and the break test and is at
`buffer.front()`, the buffer is non-empty. Semaphore program, any reachable
state `q`: `fullSlots <= buffer.size()`; after `fullSlots.acquire()` has
succeeded (the consumer is at `buffer.front()`) the buffer is non-empty, also
right after the acquire step itself; and the consumer's step is never that
fault. -/
theorem C10_front_never_on_empty (m : MutexPC.State)
    (schedL : List LockPC.Action) (l : LockPC.State)
    (hl : LockPC.run schedL LockPC.init = some l)
    (sched : List Thread) (q : SemaphorePC.State)
    (hq : SemaphorePC.run sched SemaphorePC.init = some q) :
    ((MutexPC.consumerReady m = true → MutexPC.consumerBreak m = false →
        m.buffer ≠ []) ∧
     MutexPC.consumer m ≠ Outcome.fault) ∧
    ((l.cPos = LockPC.CPos.pop → l.buffer ≠ []) ∧
     LockPC.consumer l ≠ Outcome.fault) ∧
    (q.fullSlots ≤ q.buffer.length ∧
     (q.cPc = SemaphorePC.Pc.critical → q.buffer ≠ []) ∧
     (∀ q', SemaphorePC.consumer q = Outcome.next q' →
        q.cPc = SemaphorePC.Pc.acquire →
        q'.cPc = SemaphorePC.Pc.critical ∧ q'.buffer ≠ []) ∧
     SemaphorePC.consumer q ≠ Outcome.fault) := by
  have hS := SemaphorePC.sem_inv_run sched q hq
  have hL := LockPC.lock_inv_run schedL l hl
  refine ⟨⟨?_, ?_⟩, ⟨hL.pop_item, LockPC.lock_consumer_no_fault l hL⟩,
    ?_, SemaphorePC.sem_buffer_ne_nil_at_critical q hS, ?_, ?_⟩
  · intro hr hb hnil
    simp [MutexPC.consumerReady, MutexPC.consumerBreak, hnil] at hr hb
    rw [hr] at hb
    cases hb
  · intro hfault
    rcases Bool.eq_false_or_eq_true m.consumerDone with hd | hd
    · simp [MutexPC.consumer, hd] at hfault
    · rcases MutexPC.mutex_list_cases m.buffer with hnil | ⟨item, rest, hcons⟩
      · rcases Bool.eq_false_or_eq_true m.finished with hf | hf
        · rw [MutexPC.mutex_consumer_exit m hd hnil hf] at hfault
          cases hfault
        · rw [MutexPC.mutex_consumer_blocked_of_not_ready m hd
            (by simp [MutexPC.consumerReady, hnil, hf])] at hfault
          cases hfault
      · rw [MutexPC.mutex_consumer_pop m item rest hd hcons] at hfault
        cases hfault
  · have := hS.full_eq
    omega
  · intro q' hs hacq
    have hinv' := SemaphorePC.sem_inv_consumer q q' hS hs
    obtain ⟨_, hcase⟩ := SemaphorePC.sem_consumer_next_cases q q' hs
    have hpc' : q'.cPc = SemaphorePC.Pc.critical := by
      rcases hcase with ⟨_, _, rfl⟩ | ⟨hpc, _⟩ | ⟨hpc, _⟩
      · rfl
      · rw [hacq] at hpc; cases hpc
      · rw [hacq] at hpc; cases hpc
    exact ⟨hpc', SemaphorePC.sem_buffer_ne_nil_at_critical q' hinv' hpc'⟩
  · intro hfault
    unfold SemaphorePC.consumer at hfault
    split at hfault
    · split at hfault
      · split at hfault
        · cases hfault
        · cases hfault
      · rename_i hpc
        split at hfault
        · rename_i hnil
          exact SemaphorePC.sem_buffer_ne_nil_at_critical q hS hpc hnil
        · cases hfault
      · cases hfault
    · cases hfault

theorem C10_front_never_on_empty_witness :
    LockPC.run lockToPop LockPC.init
      = some lockAtPop ∧
    SemaphorePC.run (List.replicate 14 Thread.prod ++ [Thread.cons]) SemaphorePC.init
      = some semMid ∧
    lockAtPop.cPos = LockPC.CPos.pop ∧
    semMid.cPc = SemaphorePC.Pc.critical ∧
    MutexPC.consumerReady mutexFilled = true ∧
    MutexPC.consumerBreak mutexFilled = false ∧
    (((MutexPC.consumerReady mutexFilled = true →
        MutexPC.consumerBreak mutexFilled = false → mutexFilled.buffer ≠ []) ∧
     MutexPC.consumer mutexFilled ≠ Outcome.fault) ∧
    ((lockAtPop.cPos = LockPC.CPos.pop → lockAtPop.buffer ≠ []) ∧
     LockPC.consumer lockAtPop ≠ Outcome.fault) ∧
    (semMid.fullSlots ≤ semMid.buffer.length ∧
     (semMid.cPc = SemaphorePC.Pc.critical → semMid.buffer ≠ []) ∧
     (∀ q', SemaphorePC.consumer semMid = Outcome.next q' →
        semMid.cPc = SemaphorePC.Pc.acquire →
        q'.cPc = SemaphorePC.Pc.critical ∧ q'.buffer ≠ []) ∧
     SemaphorePC.consumer semMid ≠ Outcome.fault)) :=
  ⟨by decide, by decide, by decide, by decide, by decide, by decide,
    C10_front_never_on_empty mutexFilled
      lockToPop lockAtPop (by decide)
      (List.replicate 14 Thread.prod ++ [Thread.cons]) semMid (by decide)⟩

end ProducerConsumer
